import Mathlib

/-!
Verification development for the blitz-orm query/mutation pipeline.

The development shallowly embeds the pipeline orchestrator
(`pipeline/pipeline.ts`: `runPipeline`, `Pipelines`, `finalPipeline`) and, for
the parts of the engine whose implementation is not in the repository snapshot
(request normalizer, response tree builder, pipeline dispatcher, mutation
planner), models them from the specification.  Definitions translated from
source files say so; definitions modelled from the spec carry a
`Modelled from the spec:` doc comment.
-/

/-! ## Pipeline stage names (from `Pipelines` / `finalPipeline` in pipeline.ts) -/

/-- The pipeline operation names appearing in the `Pipelines` record and
`finalPipeline` of pipeline.ts. -/
inductive OpName where
  | parseBQLQuery
  | buildTQLFetchQuery
  | runTQLQuery
  | parseTQLRes
  | dispatchPipeline
  | fillBQLMutation
  | preQuery
  | parseBQLMutation
  | buildTQLMutation
  | runTQLMutation
  | buildBQLTree
deriving DecidableEq, Repr

/-- The `Pipelines.query` stage list from pipeline.ts. -/
def PipelinesQuery : List OpName :=
  [OpName.parseBQLQuery, OpName.buildTQLFetchQuery, OpName.runTQLQuery,
   OpName.parseTQLRes, OpName.dispatchPipeline]

/-- The `Pipelines.mutation` stage list from pipeline.ts. -/
def PipelinesMutation : List OpName :=
  [OpName.fillBQLMutation, OpName.preQuery, OpName.parseBQLMutation,
   OpName.buildTQLMutation, OpName.runTQLMutation, OpName.parseTQLRes]

/-- The `finalPipeline` stage list from pipeline.ts. -/
def finalPipeline : List OpName := [OpName.buildBQLTree]

/-! ## Dynamic execution trees for `runPipeline`

`runPipeline` iterates the operations of a pipeline; an operation may return a
list of `NextPipeline`s, each run recursively with `root = false`.  An
execution is therefore a tree: each operation execution records the
sub-pipelines it spawned. -/

mutual
/-- One operation execution: the operation's name and the sub-pipeline
executions it returned (the `next` array in `runPipeline`). -/
inductive OpExec where
  | mk (op : OpName) (spawned : List PipeExec) : OpExec
/-- One pipeline execution: the sequence of operation executions. -/
inductive PipeExec where
  | mk (ops : List OpExec) : PipeExec
end

mutual
/-- Trace of stage names in execution order for one operation, mirroring the
`for` loops of `runPipeline`: the operation itself, then every spawned
sub-pipeline in order. -/
def OpExec.trace : OpExec → List OpName
  | OpExec.mk op spawned => op :: PipeExec.traceList spawned

def PipeExec.trace : PipeExec → List OpName
  | PipeExec.mk ops => OpExec.traceList ops

def OpExec.traceList : List OpExec → List OpName
  | [] => []
  | o :: rest => OpExec.trace o ++ OpExec.traceList rest

def PipeExec.traceList : List PipeExec → List OpName
  | [] => []
  | p :: rest => PipeExec.trace p ++ PipeExec.traceList rest
end

/-- Execution of `finalPipeline`: the single `buildBQLTree` stage.  Modelled
from the spec: tree building is the last stage and spawns no sub-pipelines
(the `buildBQLTree` implementation is not in the snapshot). -/
def finalPipelineExec : PipeExec := PipeExec.mk [OpExec.mk OpName.buildBQLTree []]

/-- Trace of `runPipeline(pipeline, req, res, root)`: the pipeline's own trace,
followed — only when `root` is true — by the `finalPipeline` run
(`if (root) await runPipeline(finalPipeline, req, res, false)`). -/
def runPipelineTrace (p : PipeExec) (root : Bool) : List OpName :=
  PipeExec.trace p ++ (if root then PipeExec.trace finalPipelineExec else [])

mutual
/-- True when no operation in the execution tree is `buildBQLTree` (the main
pipelines never list it; it is reserved to `finalPipeline`). -/
def OpExec.avoidsTreeBuild : OpExec → Bool
  | OpExec.mk op spawned =>
    (op != OpName.buildBQLTree) && PipeExec.avoidsTreeBuildList spawned

def PipeExec.avoidsTreeBuild : PipeExec → Bool
  | PipeExec.mk ops => OpExec.avoidsTreeBuildList ops

def OpExec.avoidsTreeBuildList : List OpExec → Bool
  | [] => true
  | o :: rest => OpExec.avoidsTreeBuild o && OpExec.avoidsTreeBuildList rest

def PipeExec.avoidsTreeBuildList : List PipeExec → Bool
  | [] => true
  | p :: rest => PipeExec.avoidsTreeBuild p && PipeExec.avoidsTreeBuildList rest
end

/-- A concrete execution: the query pipeline where `dispatchPipeline` spawns
one sub-pass rerunning the first four query stages (as §4.6 describes). -/
def examplePipeExec : PipeExec :=
  PipeExec.mk
    [OpExec.mk OpName.parseBQLQuery [],
     OpExec.mk OpName.buildTQLFetchQuery [],
     OpExec.mk OpName.runTQLQuery [],
     OpExec.mk OpName.parseTQLRes [],
     OpExec.mk OpName.dispatchPipeline
       [PipeExec.mk
         [OpExec.mk OpName.parseBQLQuery [],
          OpExec.mk OpName.buildTQLFetchQuery [],
          OpExec.mk OpName.runTQLQuery [],
          OpExec.mk OpName.parseTQLRes []]]]

/-! ## JavaScript values: the return-value logic of `runPipeline` -/

/-- JavaScript values as needed by the tail of `runPipeline` (`res.bqlRes` is
`BQLResponse | null` or still unset). -/
inductive JsVal where
  | jsUndefined
  | jsNull
  | jsStr (s : String)
  | jsBool (b : Bool)
  | jsObj (fields : List (String × JsVal))
  | jsArr (elems : List JsVal)

/-- JavaScript `typeof v === 'object'`: true for `null`, plain objects and
arrays; false for `undefined`, strings and booleans. -/
def jsTypeofIsObject : JsVal → Bool
  | JsVal.jsNull => true
  | JsVal.jsObj _ => true
  | JsVal.jsArr _ => true
  | _ => false

/-- Key/value pairs contributed by an object spread `{...v}`: an object's own
fields; an array's index/element pairs; a string's index/character pairs;
nothing for `null`, `undefined` and booleans. -/
def spreadFields : JsVal → List (String × JsVal)
  | JsVal.jsObj fs => fs
  | JsVal.jsArr xs => (List.range xs.length).zip xs |>.map
      (fun p => (toString p.1, p.2))
  | JsVal.jsStr s => (List.range s.length).zip (s.toList.map
      (fun c => JsVal.jsStr (String.mk [c]))) |>.map (fun p => (toString p.1, p.2))
  | _ => []

/-- JavaScript object-literal semantics of `{...fs, k: v}`: overwrite in place
when `k` is already a key, else append. -/
def setKey (fs : List (String × JsVal)) (k : String) (v : JsVal) :
    List (String × JsVal) :=
  if fs.any (fun kv => kv.1 == k) then
    fs.map (fun kv => if kv.1 == k then (kv.1, v) else kv)
  else fs ++ [(k, v)]

/-- The debugger attachment `{ ...res.bqlRes, $debugger: { tqlRequest } }`
from line 114 of pipeline.ts. -/
def attachDebugger (tqlRequest : JsVal) (bqlRes : JsVal) : JsVal :=
  JsVal.jsObj (setKey (spreadFields bqlRes) ("$debugger")
    (JsVal.jsObj [(("tqlRequest"), tqlRequest)]))

/-- The value returned by `runPipeline` (lines 108-120 of pipeline.ts): the
debugger payload is considered only when `root` is true, and attached exactly
when the config debugger flag is set and `typeof res.bqlRes === 'object'`. -/
def runPipelineResult (root : Bool) (debuggerOn : Bool) (tqlRequest : JsVal)
    (bqlRes : JsVal) : JsVal :=
  if root then
    if debuggerOn && jsTypeofIsObject bqlRes then attachDebugger tqlRequest bqlRes
    else bqlRes
  else bqlRes

/-! ## Schema model (spec §3, consumed as an already-enriched schema) -/

/-- Modelled from the spec: one attribute of the enriched Schema Model
(own + inherited), with its `validations.unique` flag. -/
structure AttributeDef where
  name : String
  unique : Bool
deriving DecidableEq, Repr

/-- Modelled from the spec: one linkfield (derived navigable path) of the
enriched Schema Model, with target type and role cardinality. -/
structure LinkFieldDef where
  name : String
  target : String
  cardMany : Bool
deriving DecidableEq, Repr

/-- Modelled from the spec: one entity or relation type of the enriched
Schema Model. -/
structure TypeDef where
  name : String
  isRelation : Bool
  attributes : List AttributeDef
  linkFields : List LinkFieldDef
deriving DecidableEq, Repr

/-- Modelled from the spec: the enriched, read-only Schema Model. -/
structure BormSchema where
  types : List TypeDef
deriving DecidableEq, Repr

def BormSchema.lookup (s : BormSchema) (n : String) : Option TypeDef :=
  s.types.find? (fun t => t.name == n)

/-- The metadata keys `$entity`, `$relation`, `$id` (spec §6). -/
def metaKeys : List String := [("$entity"), ("$relation"), ("$id")]

/-- A type is well formed when none of its field names collides with a
metadata key. -/
def wellFormedType (t : TypeDef) : Bool :=
  t.attributes.all (fun a => !(metaKeys.contains a.name)) &&
  t.linkFields.all (fun lf => !(metaKeys.contains lf.name))

def wellFormedSchema (s : BormSchema) : Bool :=
  s.types.all wellFormedType

/-! ## Canonical request (spec §3, §6) -/

/-- The `$id` filter of a request node: absent, a single id, or a set. -/
inductive IdFilter where
  | noId
  | one (id : String)
  | many (ids : List String)
deriving DecidableEq, Repr

mutual
/-- Modelled from the spec: a canonical request node — id-filter, value-filter
(conjunction of attribute equalities), field selection (explicit list or
implicit all), excluded fields. -/
inductive QueryNode where
  | mk (idf : IdFilter) (flt : List (String × String))
       (fields : Option (List FieldSel)) (excluded : List String) : QueryNode
/-- One entry of a `$fields` list: a bare field name, or a nested selection
`{$path, ...}` carrying its own node. -/
inductive FieldSel where
  | plain (name : String) : FieldSel
  | nested (path : String) (node : QueryNode) : FieldSel
end

/-- The response key a selection produces. -/
def FieldSel.key : FieldSel → String
  | FieldSel.plain n => n
  | FieldSel.nested p _ => p

def fieldKeys (fs : List FieldSel) : List String := fs.map FieldSel.key

/-! ## Backend contents, as cached after result normalization (spec §3) -/

/-- Modelled from the spec: one cached record — flat attribute map plus
role-link entries mapping a field path to linked ids. -/
structure ThingInstance where
  id : String
  ttype : String
  attrs : List (String × String)
  links : List (String × List String)
deriving DecidableEq, Repr

/-- Modelled from the spec: the request-scoped Cache, flattened to one list of
typed records (ids are globally unique within a type). -/
structure DB where
  things : List ThingInstance
deriving DecidableEq, Repr

def lookupAttr (i : ThingInstance) (a : String) : Option String :=
  match i.attrs.find? (fun kv => kv.1 == a) with
  | some kv => some kv.2
  | none => none

def lookupLinks (i : ThingInstance) (p : String) : List String :=
  match i.links.find? (fun kv => kv.1 == p) with
  | some kv => kv.2
  | none => []

def hasAttr (t : TypeDef) (a : String) : Bool :=
  t.attributes.any (fun ad => ad.name == a)

def isUniqueAttr (t : TypeDef) (a : String) : Bool :=
  t.attributes.any (fun ad => ad.name == a && ad.unique)

def findLinkField (t : TypeDef) (p : String) : Option LinkFieldDef :=
  t.linkFields.find? (fun lf => lf.name == p)

def matchesId (idf : IdFilter) (i : ThingInstance) : Bool :=
  match idf with
  | IdFilter.noId => true
  | IdFilter.one x => i.id == x
  | IdFilter.many xs => xs.contains i.id

def matchesFilter (flt : List (String × String)) (i : ThingInstance) : Bool :=
  flt.all (fun kv => lookupAttr i kv.1 == some kv.2)

def inAllowed (allowed : Option (List String)) (i : ThingInstance) : Bool :=
  match allowed with
  | none => true
  | some ids => ids.contains i.id

/-- The instances a node resolves to: the node's type, restricted to the
parent's role-link ids when nested, by the id-filter and by the value-filter. -/
def candidates (db : DB) (tname : String) (allowed : Option (List String))
    (idf : IdFilter) (flt : List (String × String)) : List ThingInstance :=
  db.things.filter (fun i =>
    i.ttype == tname && inAllowed allowed i && matchesId idf i && matchesFilter flt i)

/-- Modelled from the spec (§4.1): the per-node singular/plural decision —
single iff the id-filter selects one id, or the value-filter is anchored on an
attribute marked unique; otherwise array. -/
def singularNode (t : TypeDef) (idf : IdFilter) (flt : List (String × String)) : Bool :=
  match idf with
  | IdFilter.one _ => true
  | IdFilter.many _ => false
  | IdFilter.noId => flt.any (fun kv => isUniqueAttr t kv.1)

/-! ## Response values -/

/-- Response-tree values: `null`, strings (attribute values and ids), objects
and arrays. -/
inductive BVal where
  | vnull
  | vstr (s : String)
  | vobj (fields : List (String × BVal))
  | varr (items : List BVal)

/-- The items a value contributes when merged into a combined array:
an array contributes its elements, `null` nothing, anything else itself. -/
def toItems : BVal → List BVal
  | BVal.vnull => []
  | BVal.varr xs => xs
  | v => [v]

/-- Modelled from the spec (§4.6, §8): when the same key is produced by
several selections, their results are combined into one array under that key —
never silently dropped.  Keys occurring once are left untouched. -/
def mergeDup : List (String × BVal) → List (String × BVal)
  | [] => []
  | kv :: rest =>
    if rest.any (fun kv2 => kv2.1 == kv.1) then
      (kv.1, BVal.varr (toItems kv.2 ++
        ((rest.filter (fun kv2 => kv2.1 == kv.1)).map (fun kv2 => toItems kv2.2)).flatten))
        :: mergeDup (rest.filter (fun kv2 => kv2.1 != kv.1))
    else kv :: mergeDup rest
termination_by l => l.length
decreasing_by
  · simp only [List.length_cons]
    exact Nat.lt_succ_of_le (List.length_filter_le _ _)
  · simp only [List.length_cons]
    exact Nat.lt_succ_self _

def lookupKey : List (String × BVal) → String → Option BVal
  | [], _ => none
  | kv :: rest, k => if kv.1 == k then some kv.2 else lookupKey rest k

def BVal.lookup : BVal → String → Option BVal
  | BVal.vobj fs, k => lookupKey fs k
  | _, _ => none

/-- The recognized call options (spec §6). -/
structure QueryOptions where
  noMetadata : Bool
  returnNulls : Bool
deriving DecidableEq, Repr

/-- Modelled from the spec (§4.5, §6): the value of a bare requested field —
an attribute's value (or `null`/omitted when absent, per `returnNulls`), or a
linkfield's linked ids (array when the role is plural, a single id otherwise);
a name the schema does not resolve is omitted. -/
def plainFieldPair (opts : QueryOptions) (t : TypeDef) (i : ThingInstance)
    (f : String) : Option (String × BVal) :=
  if hasAttr t f then
    match lookupAttr i f with
    | some v => some (f, BVal.vstr v)
    | none => if opts.returnNulls then some (f, BVal.vnull) else none
  else
    match findLinkField t f with
    | some lf =>
      match lookupLinks i f with
      | [] => if opts.returnNulls then some (f, BVal.vnull) else none
      | id0 :: restIds =>
        if lf.cardMany then
          some (f, BVal.varr ((id0 :: restIds).map BVal.vstr))
        else some (f, BVal.vstr id0)
    | none => none

/-- Modelled from the spec: the implicit "all" field list — every attribute,
then every linkfield, each rendered as a bare field. -/
def allFieldPairs (opts : QueryOptions) (t : TypeDef) (i : ThingInstance) :
    List (String × BVal) :=
  (t.attributes.map (fun a => a.name) ++ t.linkFields.map (fun lf => lf.name)).filterMap
    (fun f => plainFieldPair opts t i f)

/-- The metadata keys of a response node (spec §4.5): `$entity` or `$relation`
plus `$id`, unless suppressed by `noMetadata`. -/
def metaPairs (opts : QueryOptions) (t : TypeDef) (tname : String)
    (i : ThingInstance) : List (String × BVal) :=
  if opts.noMetadata then []
  else [((if t.isRelation then ("$relation") else ("$entity")), BVal.vstr tname),
        (("$id"), BVal.vstr i.id)]

/-- An empty nested result (`null` or an empty array), whose key is omitted
from the parent node (or substituted by `null` under `returnNulls`). -/
def isEmptyVal : BVal → Bool
  | BVal.vnull => true
  | BVal.varr [] => true
  | _ => false

mutual
/-- Modelled from the spec (§4.5): the Response Tree Builder for one request
node — resolve the node's candidate instances, then a single object (or
`null`) when the §4.1 decision is singular, else an array in answer order. -/
def buildNode (schema : BormSchema) (db : DB) (opts : QueryOptions)
    (tname : String) (allowed : Option (List String)) (n : QueryNode) : BVal :=
  match n with
  | QueryNode.mk idf flt fields excl =>
    match BormSchema.lookup schema tname with
    | none => BVal.vnull
    | some t =>
      if singularNode t idf flt then
        match candidates db tname allowed idf flt with
        | [] => BVal.vnull
        | i :: _ => buildObj schema db opts t tname fields excl i
      else
        BVal.varr (buildObjList schema db opts t tname fields excl
          (candidates db tname allowed idf flt))
termination_by (sizeOf n, 3, 0)
decreasing_by
  all_goals simp_wf
  all_goals apply Prod.Lex.left
  all_goals simp_arith

def buildObjList (schema : BormSchema) (db : DB) (opts : QueryOptions)
    (t : TypeDef) (tname : String) (fields : Option (List FieldSel))
    (excl : List String) (cs : List ThingInstance) : List BVal :=
  match cs with
  | [] => []
  | i :: rest =>
    buildObj schema db opts t tname fields excl i ::
      buildObjList schema db opts t tname fields excl rest
termination_by (sizeOf fields, 2, cs.length + 1)
decreasing_by
  all_goals simp_wf
  all_goals apply Prod.Lex.right
  all_goals apply Prod.Lex.right
  all_goals simp_arith

/-- One response node object: metadata, requested fields (same-key selections
combined), excluded fields dropped last (spec §4.5). -/
def buildObj (schema : BormSchema) (db : DB) (opts : QueryOptions)
    (t : TypeDef) (tname : String) (fields : Option (List FieldSel))
    (excl : List String) (i : ThingInstance) : BVal :=
  BVal.vobj ((mergeDup (metaPairs opts t tname i ++
    (match fields with
     | none => allFieldPairs opts t i
     | some fs => buildFieldList schema db opts t i fs))).filter
    (fun kv => !(excl.contains kv.1)))
termination_by (sizeOf fields, 2, 0)
decreasing_by
  all_goals simp_wf
  all_goals apply Prod.Lex.left
  all_goals simp_arith

def buildFieldList (schema : BormSchema) (db : DB) (opts : QueryOptions)
    (t : TypeDef) (i : ThingInstance) (fs : List FieldSel) :
    List (String × BVal) :=
  match fs with
  | [] => []
  | f :: rest =>
    match buildField schema db opts t i f with
    | some kv => kv :: buildFieldList schema db opts t i rest
    | none => buildFieldList schema db opts t i rest
termination_by (sizeOf fs, 1, 0)
decreasing_by
  all_goals simp_wf
  all_goals apply Prod.Lex.left
  all_goals simp_arith

/-- One requested selection on one instance: a bare field resolves through the
schema; a nested selection traverses the role-link ids for its path and builds
the child node there, its key omitted (or `null` under `returnNulls`) when the
child result is empty. -/
def buildField (schema : BormSchema) (db : DB) (opts : QueryOptions)
    (t : TypeDef) (i : ThingInstance) (f : FieldSel) : Option (String × BVal) :=
  match f with
  | FieldSel.plain g => plainFieldPair opts t i g
  | FieldSel.nested p c =>
    match findLinkField t p with
    | none => none
    | some lf =>
      match buildNode schema db opts lf.target (some (lookupLinks i p)) c with
      | BVal.vnull =>
        if opts.returnNulls then some (p, BVal.vnull) else none
      | BVal.varr [] =>
        if opts.returnNulls then some (p, BVal.vnull) else none
      | v => some (p, v)
termination_by (sizeOf f, 0, 0)
decreasing_by
  all_goals simp_wf
  all_goals apply Prod.Lex.left
  all_goals simp_arith
end

/-- The root entry point of the Response Tree Builder (the `buildBQLTree`
stage): build the root node with no parent restriction. -/
def buildBQLTreeModel (schema : BormSchema) (db : DB) (opts : QueryOptions)
    (tname : String) (n : QueryNode) : BVal :=
  buildNode schema db opts tname none n

mutual
/-- Modelled from the spec (§6, §8): recursive removal of the metadata keys
`$entity`, `$relation` and `$id` from every node of a response (the
`noMetadata` comparison used by test e3). -/
def deepRemoveMetaData : BVal → BVal
  | BVal.vnull => BVal.vnull
  | BVal.vstr s => BVal.vstr s
  | BVal.vobj fs => BVal.vobj (deepRemoveFields fs)
  | BVal.varr xs => BVal.varr (deepRemoveList xs)

def deepRemoveList : List BVal → List BVal
  | [] => []
  | v :: rest => deepRemoveMetaData v :: deepRemoveList rest

def deepRemoveFields : List (String × BVal) → List (String × BVal)
  | [] => []
  | kv :: rest =>
    if metaKeys.contains kv.1 then deepRemoveFields rest
    else (kv.1, deepRemoveMetaData kv.2) :: deepRemoveFields rest
end

/-! ## Request validation and the query pipeline (spec §4.1, §7; pipeline.ts) -/

/-- A raw request as received: the optional `$entity`/`$relation` selectors
plus the request body. -/
structure RawBQLRequest where
  entity : Option String
  relation : Option String
  node : QueryNode

/-- The error classes of spec §7 surfaced by reads. -/
inductive BormError where
  | schemaError
  | typeError
  | backendError
deriving DecidableEq, Repr

/-- Modelled from the spec (§4.1, §7): the `parseBQLQuery` stage — the root
must declare exactly one of `$entity`/`$relation`, and the named type must be
present in the Schema Model, else the call fails with `SchemaError`. -/
def parseBQLQueryModel (schema : BormSchema) (raw : RawBQLRequest) :
    Except BormError (String × QueryNode) :=
  match raw.entity, raw.relation with
  | none, none => Except.error BormError.schemaError
  | some e, none =>
    match BormSchema.lookup schema e with
    | some _ => Except.ok (e, raw.node)
    | none => Except.error BormError.schemaError
  | none, some r =>
    match BormSchema.lookup schema r with
    | some _ => Except.ok (r, raw.node)
    | none => Except.error BormError.schemaError
  | some _, some _ => Except.error BormError.schemaError

/-- The whole read call: validate, then build the response tree over the
cached backend contents. -/
def runQueryModel (schema : BormSchema) (db : DB) (opts : QueryOptions)
    (raw : RawBQLRequest) : Except BormError BVal :=
  match parseBQLQueryModel schema raw with
  | Except.error e => Except.error e
  | Except.ok tn => Except.ok (buildBQLTreeModel schema db opts tn.1 tn.2)

/-- State threaded through the staged query pipeline. -/
structure QPipeState where
  raw : RawBQLRequest
  parsed : Option (String × QueryNode)

/-- Modelled from the spec: the effect of one query-pipeline stage on the
request state. `parseBQLQuery` validates and can fail with `SchemaError`;
the later stages (compiler, backend adapter, result normalizer, dispatcher —
implementations not in the snapshot) never raise `SchemaError` and pass the
state through. -/
def queryStage (schema : BormSchema) (op : OpName) (st : QPipeState) :
    Except BormError QPipeState :=
  match op with
  | OpName.parseBQLQuery =>
    match parseBQLQueryModel schema st.raw with
    | Except.error e => Except.error e
    | Except.ok tn => Except.ok { raw := st.raw, parsed := some tn }
  | _ => Except.ok st

/-- Run a stage list in order, stopping at the first failing stage; returns
the stages actually executed together with the outcome (mirrors the `for`
loop of `runPipeline`, where a thrown error aborts the remaining stages). -/
def runStages (schema : BormSchema) (st : QPipeState) :
    List OpName → List OpName × Except BormError QPipeState
  | [] => ([], Except.ok st)
  | op :: rest =>
    match queryStage schema op st with
    | Except.error e => ([op], Except.error e)
    | Except.ok st2 =>
      ((op :: (runStages schema st2 rest).1), (runStages schema st2 rest).2)

/-- The `Pipelines.query` stage sequence applied to a raw request. -/
def runQueryPipelineTraced (schema : BormSchema) (raw : RawBQLRequest) :
    List OpName × Except BormError QPipeState :=
  runStages schema { raw := raw, parsed := none } PipelinesQuery

/-! ## Mutations (spec §4.7; `ParsedBQLMutation` in types/requests/mutations.ts) -/

/-- The `$op` of a mutation node (types/requests/mutations.ts). -/
inductive MutOp where
  | create
  | update
  | delete
  | link
  | unlink
deriving DecidableEq, Repr

/-- Modelled from the spec: a filled mutation node — its op, its tempId (every
node has one after filling) and its nested mutations. -/
inductive MutNode where
  | mk (op : MutOp) (tempId : String) (children : List MutNode)

def MutNode.op : MutNode → MutOp
  | MutNode.mk o _ _ => o

def MutNode.tempId : MutNode → String
  | MutNode.mk _ tid _ => tid

/-- A thing write: an entity/relation instance write (`create`/`update`/
`delete`). -/
def isThingOp (o : MutOp) : Bool :=
  match o with
  | MutOp.create => true
  | MutOp.update => true
  | MutOp.delete => true
  | _ => false

/-- The role-link write connecting a child to its parent: `unlink` when the
child is being deleted or unlinked, `link` otherwise. -/
def edgeOpFor (childOp : MutOp) : MutOp :=
  match childOp with
  | MutOp.delete => MutOp.unlink
  | MutOp.unlink => MutOp.unlink
  | _ => MutOp.link

mutual
/-- Modelled from the spec (§4.7): collect the "thing" writes of a mutation
tree — every node whose op writes an instance, in tree order. -/
def collectThings : MutNode → List (MutOp × String)
  | MutNode.mk o tid children =>
    (if isThingOp o then [(o, tid)] else []) ++ collectThingsList children

def collectThingsList : List MutNode → List (MutOp × String)
  | [] => []
  | c :: rest => collectThings c ++ collectThingsList rest
end

mutual
/-- Modelled from the spec (§4.7): collect the "edge" writes — one role-link
write per parent/child pair, referencing both tempIds. -/
def collectEdges : MutNode → List (MutOp × String × String)
  | MutNode.mk _ tid children => collectEdgesList tid children

def collectEdgesList (ptid : String) : List MutNode → List (MutOp × String × String)
  | [] => []
  | c :: rest =>
    (edgeOpFor c.op, ptid, c.tempId) :: (collectEdges c ++ collectEdgesList ptid rest)
end

/-- The `ParsedBQLMutation` shape from types/requests/mutations.ts: the
mutation tree split into things and edges. -/
structure ParsedBQLMutation where
  things : List (MutOp × String)
  edges : List (MutOp × String × String)
deriving DecidableEq, Repr

/-- Modelled from the spec (§4.7): the `parseBQLMutation` stage — split the
filled mutation tree into things and edges. -/
def parseBQLMutationModel (root : MutNode) : ParsedBQLMutation :=
  { things := collectThings root, edges := collectEdges root }

/-- One compiled write statement: a thing write or an edge write. -/
inductive MutStatement where
  | thing (op : MutOp) (tempId : String)
  | edge (op : MutOp) (fromId : String) (toId : String)
deriving DecidableEq, Repr

def MutStatement.isCreateThing : MutStatement → Bool
  | MutStatement.thing MutOp.create _ => true
  | _ => false

def MutStatement.isDeleteThing : MutStatement → Bool
  | MutStatement.thing MutOp.delete _ => true
  | _ => false

def MutStatement.isLinkEdge : MutStatement → Bool
  | MutStatement.edge MutOp.link _ _ => true
  | _ => false

def MutStatement.isUnlinkEdge : MutStatement → Bool
  | MutStatement.edge MutOp.unlink _ _ => true
  | _ => false

/-- The tempIds a statement references. -/
def MutStatement.refs : MutStatement → List String
  | MutStatement.thing _ tid => [tid]
  | MutStatement.edge _ a b => [a, b]

/-- The non-delete thing statements (creates and updates). -/
def thingsNonDelete (p : ParsedBQLMutation) : List MutStatement :=
  (p.things.filter (fun tw => tw.1 != MutOp.delete)).map
    (fun tw => MutStatement.thing tw.1 tw.2)

/-- The link edge statements. -/
def linkEdges (p : ParsedBQLMutation) : List MutStatement :=
  (p.edges.filter (fun ew => ew.1 == MutOp.link)).map
    (fun ew => MutStatement.edge ew.1 ew.2.1 ew.2.2)

/-- The unlink edge statements. -/
def unlinkEdges (p : ParsedBQLMutation) : List MutStatement :=
  (p.edges.filter (fun ew => ew.1 == MutOp.unlink)).map
    (fun ew => MutStatement.edge ew.1 ew.2.1 ew.2.2)

/-- The delete thing statements. -/
def deleteThings (p : ParsedBQLMutation) : List MutStatement :=
  (p.things.filter (fun tw => tw.1 == MutOp.delete)).map
    (fun tw => MutStatement.thing tw.1 tw.2)

/-- Modelled from the spec (§4.7): topological ordering of the parsed
mutation — non-delete things (creates, updates) first, then link edges, then
unlink edges, then delete things. -/
def orderedStatements (p : ParsedBQLMutation) : List MutStatement :=
  thingsNonDelete p ++ linkEdges p ++ unlinkEdges p ++ deleteThings p

/-! ## Transactional commit (spec §4.7, §7 `MutationError`) -/

/-- The `MutationError` report of spec §7: the position of the first failing
operation and the backend message. -/
structure MutationErrorReport where
  failingIndex : Nat
  message : String
deriving DecidableEq, Repr

/-- Modelled from the spec (§4.7): the `runTQLMutation` stage — execute the
compiled statements in order against a backend state `apply`; the first
failure aborts the remaining statements and reports which operation failed. -/
def runTQLMutationModel {St : Type}
    (apply : St → MutStatement → Except String St) (k : Nat) (st : St) :
    List MutStatement → Except MutationErrorReport St
  | [] => Except.ok st
  | s :: rest =>
    match apply st s with
    | Except.ok st2 => runTQLMutationModel apply (k + 1) st2 rest
    | Except.error m => Except.error { failingIndex := k, message := m }

/-- Modelled from the spec (§4.7, §7): commit of one mutation request as a
single logical transaction — on any failure the whole request is aborted and
the state visible to the caller is the original one. -/
def commitMutation {St : Type}
    (apply : St → MutStatement → Except String St) (st : St)
    (stmts : List MutStatement) : St × Option MutationErrorReport :=
  match runTQLMutationModel apply 0 st stmts with
  | Except.ok st2 => (st2, none)
  | Except.error e => (st, some e)

/-- Sequential application of a statement prefix, `none` as soon as one
fails — the reference semantics the commit theorem compares against. -/
def applyPrefix {St : Type}
    (apply : St → MutStatement → Except String St) (st : St) :
    List MutStatement → Option St
  | [] => some st
  | s :: rest =>
    match apply st s with
    | Except.ok st2 => applyPrefix apply st2 rest
    | Except.error _ => none

/-! ## Concrete fixtures (mirroring tests/mocks: users, accounts, spaces) -/

/-- The `User` entity of the test schema: unique `id`, plain `name`/`email`,
plural linkfields `accounts` and `spaces`. -/
def userType : TypeDef :=
  { name := ("User"), isRelation := false,
    attributes := [{ name := ("id"), unique := true },
                   { name := ("name"), unique := false },
                   { name := ("email"), unique := false }],
    linkFields := [{ name := ("accounts"), target := ("Account"), cardMany := true },
                   { name := ("spaces"), target := ("Space"), cardMany := true }] }

/-- The `Account` entity of the test schema: unique `id`, plain `provider`,
singular linkfield `user`. -/
def accountType : TypeDef :=
  { name := ("Account"), isRelation := false,
    attributes := [{ name := ("id"), unique := true },
                   { name := ("provider"), unique := false }],
    linkFields := [{ name := ("user"), target := ("User"), cardMany := false }] }

/-- The `Space` entity of the test schema. -/
def spaceType : TypeDef :=
  { name := ("Space"), isRelation := false,
    attributes := [{ name := ("id"), unique := true },
                   { name := ("name"), unique := false }],
    linkFields := [{ name := ("users"), target := ("User"), cardMany := true }] }

def testSchema : BormSchema := { types := [userType, accountType, spaceType] }

def user1 : ThingInstance :=
  { id := ("user1"), ttype := ("User"),
    attrs := [(("id"), ("user1")), (("name"), ("Antoine")),
              (("email"), ("antoine@test.com"))],
    links := [(("accounts"), [("account1-1"), ("account1-2"), ("account1-3")]),
              (("spaces"), [("space-1"), ("space-2")])] }

def user2 : ThingInstance :=
  { id := ("user2"), ttype := ("User"),
    attrs := [(("id"), ("user2")), (("name"), ("Loic")),
              (("email"), ("loic@test.com"))],
    links := [(("accounts"), [("account2-1")]), (("spaces"), [("space-2")])] }

/-- `user4` has no email and no links (the `returnNulls` test subject). -/
def user4 : ThingInstance :=
  { id := ("user4"), ttype := ("User"),
    attrs := [(("id"), ("user4")), (("name"), ("Ben"))],
    links := [] }

def account11 : ThingInstance :=
  { id := ("account1-1"), ttype := ("Account"),
    attrs := [(("id"), ("account1-1")), (("provider"), ("google"))],
    links := [(("user"), [("user1")])] }

def account21 : ThingInstance :=
  { id := ("account2-1"), ttype := ("Account"),
    attrs := [(("id"), ("account2-1")), (("provider"), ("google"))],
    links := [(("user"), [("user2")])] }

def space1 : ThingInstance :=
  { id := ("space-1"), ttype := ("Space"),
    attrs := [(("id"), ("space-1")), (("name"), ("Production"))],
    links := [(("users"), [("user1")])] }

def space2 : ThingInstance :=
  { id := ("space-2"), ttype := ("Space"),
    attrs := [(("id"), ("space-2")), (("name"), ("Dev"))],
    links := [(("users"), [("user1"), ("user2")])] }

def testDB : DB :=
  { things := [user1, user2, user4, account11, account21, space1, space2] }

/-! ## Auxiliary definitions used by the theorems -/

/-- The requested-field pairs of one response node, before metadata and
exclusion handling (the `match` inside `buildObj`). -/
def bodyPairs (schema : BormSchema) (db : DB) (opts : QueryOptions)
    (t : TypeDef) (i : ThingInstance) (fields : Option (List FieldSel)) :
    List (String × BVal) :=
  match fields with
  | none => allFieldPairs opts t i
  | some fs => buildFieldList schema db opts t i fs

/-- Reference reading of the merged value of key `k`: the single value when
`k` is produced once, the combined array when it is produced several times. -/
def combineValuesAt (l : List (String × BVal)) (k : String) : Option BVal :=
  match l.filter (fun kv => kv.1 == k) with
  | [] => none
  | [kv] => some kv.2
  | kvs => some (BVal.varr ((kvs.map (fun kv => toItems kv.2)).flatten))

/-- Map `deepRemoveMetaData` over the values of a field list, keys kept. -/
def stripSnd (l : List (String × BVal)) : List (String × BVal) :=
  l.map (fun kv => (kv.1, deepRemoveMetaData kv.2))

def optsPlain : QueryOptions := { noMetadata := false, returnNulls := false }

def optsReturnNulls : QueryOptions := { noMetadata := false, returnNulls := true }

/-- A small request body used by concrete instantiations. -/
def exampleQueryNode : QueryNode :=
  QueryNode.mk IdFilter.noId [] (some [FieldSel.plain ("name")]) []

/-- A raw request with no type selector (test v1). -/
def rawNoSelector : RawBQLRequest :=
  { entity := none, relation := none, node := exampleQueryNode }

/-- A raw request naming a type absent from the schema (test v2). -/
def rawUnknownType : RawBQLRequest :=
  { entity := some ("fakeEntity"), relation := none, node := exampleQueryNode }

/-- A mutation tree: a created parent with a created child and a deleted
child. -/
def exampleMutRoot : MutNode :=
  MutNode.mk MutOp.create ("p")
    [MutNode.mk MutOp.create ("c") [], MutNode.mk MutOp.delete ("d") []]

/-- A backend-state model for the commit theorem: counts applied statements,
failing on one specific statement. -/
def exApply (n : Nat) (s : MutStatement) : Except String Nat :=
  if s = MutStatement.thing MutOp.delete ("bad") then Except.error ("boom")
  else Except.ok (n + 1)

def exStmts : List MutStatement :=
  [MutStatement.thing MutOp.create ("a"),
   MutStatement.thing MutOp.delete ("bad"),
   MutStatement.thing MutOp.create ("c")]

/-! ## C9: tree building runs exactly once, at the root, after everything -/

/-- C9: for every top-level request, the final response tree is built only
after every stage and every recursively spawned sub-pipeline has returned:
provided no stage of the main execution is `buildBQLTree` (the `Pipelines`
stage lists never contain it — last two conjuncts), the root run's trace is
the whole main trace followed by a single final `buildBQLTree`, which
therefore runs exactly once and at the very end; a non-root run (a spawned
sub-pipeline) never runs it. -/
theorem treeBuild_once_at_root (p : PipeExec)
    (h : (PipeExec.trace p).count OpName.buildBQLTree = 0) :
    runPipelineTrace p true = PipeExec.trace p ++ [OpName.buildBQLTree]
    ∧ (runPipelineTrace p true).count OpName.buildBQLTree = 1
    ∧ (runPipelineTrace p false).count OpName.buildBQLTree = 0
    ∧ PipelinesQuery.count OpName.buildBQLTree = 0
    ∧ PipelinesMutation.count OpName.buildBQLTree = 0 := by
  refine ⟨?_, ?_, ?_, by decide, by decide⟩
  · simp [runPipelineTrace, finalPipelineExec, PipeExec.trace, OpExec.traceList,
      OpExec.trace, PipeExec.traceList]
  · simp [runPipelineTrace, finalPipelineExec, PipeExec.trace, OpExec.traceList,
      OpExec.trace, PipeExec.traceList, List.count_append, h]
  · simp [runPipelineTrace, h]

/-- Witness for C9 at a concrete execution: the query pipeline with one
dispatched sub-pass. -/
theorem treeBuild_once_at_root_witness :
    (PipeExec.trace examplePipeExec).count OpName.buildBQLTree = 0
    ∧ (runPipelineTrace examplePipeExec true
        = PipeExec.trace examplePipeExec ++ [OpName.buildBQLTree]
      ∧ (runPipelineTrace examplePipeExec true).count OpName.buildBQLTree = 1
      ∧ (runPipelineTrace examplePipeExec false).count OpName.buildBQLTree = 0
      ∧ PipelinesQuery.count OpName.buildBQLTree = 0
      ∧ PipelinesMutation.count OpName.buildBQLTree = 0) :=
  ⟨by decide, treeBuild_once_at_root examplePipeExec (by decide)⟩

/-! ## C10: the debugger payload and the `typeof null === 'object'` corner -/

/-- C10: the `$debugger` payload is attached only by the root invocation of
`runPipeline` — a sub-pipeline (`root = false`) returns `res.bqlRes`
unchanged, as does a root run with the debugger off; and since the guard
`typeof res.bqlRes === 'object'` accepts `null`, a root query whose result is
`null` with the debugger on returns `{ $debugger: { tqlRequest } }` with no
other keys instead of `null`. -/
theorem debugger_root_only_and_null_object :
    (∀ (d : Bool) (t v : JsVal), runPipelineResult false d t v = v)
    ∧ (∀ (t v : JsVal), runPipelineResult true false t v = v)
    ∧ jsTypeofIsObject JsVal.jsNull = true
    ∧ (∀ t : JsVal, runPipelineResult true true t JsVal.jsNull
        = JsVal.jsObj [(("$debugger"), JsVal.jsObj [(("tqlRequest"), t)])]) := by
  refine ⟨fun d t v => rfl, fun t v => rfl, rfl, fun t => ?_⟩
  simp [runPipelineResult, jsTypeofIsObject, attachDebugger, spreadFields, setKey]

/-! ## C3: missing or unknown type selector fails with SchemaError first -/

/-- C3: a request lacking a type selector, or naming a type absent from the
Schema Model, fails with `SchemaError` during the first pipeline stage — the
backend stage `runTQLQuery` is never reached. -/
theorem schemaError_before_backend (schema : BormSchema) (raw : RawBQLRequest)
    (h : (raw.entity = none ∧ raw.relation = none)
       ∨ (∃ e, raw.entity = some e ∧ BormSchema.lookup schema e = none)
       ∨ (∃ r, raw.relation = some r ∧ BormSchema.lookup schema r = none)) :
    (runQueryPipelineTraced schema raw).2 = Except.error BormError.schemaError
    ∧ OpName.runTQLQuery ∉ (runQueryPipelineTraced schema raw).1 := by
  have hparse : parseBQLQueryModel schema raw = Except.error BormError.schemaError := by
    rcases h with ⟨h1, h2⟩ | ⟨e, he, hl⟩ | ⟨r, hr, hl⟩
    · simp [parseBQLQueryModel, h1, h2]
    · cases hrel : raw.relation with
      | none => simp [parseBQLQueryModel, he, hrel, hl]
      | some r => simp [parseBQLQueryModel, he, hrel]
    · cases hent : raw.entity with
      | none => simp [parseBQLQueryModel, hent, hr, hl]
      | some e => simp [parseBQLQueryModel, hent, hr]
  constructor
  · simp [runQueryPipelineTraced, PipelinesQuery, runStages, queryStage, hparse]
  · simp [runQueryPipelineTraced, PipelinesQuery, runStages, queryStage, hparse]

/-- Witness for C3: the selector-less request of test v1 and the unknown-type
request of test v2. -/
theorem schemaError_before_backend_witness :
    (rawNoSelector.entity = none ∧ rawNoSelector.relation = none)
    ∧ ((runQueryPipelineTraced testSchema rawNoSelector).2
        = Except.error BormError.schemaError
      ∧ OpName.runTQLQuery ∉ (runQueryPipelineTraced testSchema rawNoSelector).1) :=
  ⟨⟨rfl, rfl⟩, schemaError_before_backend testSchema rawNoSelector
    (Or.inl ⟨rfl, rfl⟩)⟩

/-! ## C7: mutations commit as one transaction -/

/-- When the statement runner reports an error, the failing index is the first
statement (from position `k` on) whose application fails, all earlier ones
having succeeded. -/
theorem runTQL_error_spec {St : Type}
    (apply : St → MutStatement → Except String St) :
    ∀ (stmts : List MutStatement) (k : Nat) (st : St) (e : MutationErrorReport),
      runTQLMutationModel apply k st stmts = Except.error e →
      k ≤ e.failingIndex
      ∧ ∃ s, applyPrefix apply st (stmts.take (e.failingIndex - k)) = some s
          ∧ ∃ stmt, stmts.get? (e.failingIndex - k) = some stmt
              ∧ apply s stmt = Except.error e.message := by
  intro stmts
  induction stmts with
  | nil => intro k st e h; simp [runTQLMutationModel] at h
  | cons s0 rest ih =>
    intro k st e h
    simp only [runTQLMutationModel] at h
    cases happ : apply st s0 with
    | ok st2 =>
      simp only [happ] at h
      obtain ⟨hk, s, hpre, stmt, hget, herr⟩ := ih (k + 1) st2 e h
      have hidx : e.failingIndex - k = (e.failingIndex - (k + 1)) + 1 := by omega
      refine ⟨by omega, s, ?_, stmt, ?_, herr⟩
      · rw [hidx]
        simpa [applyPrefix, happ] using hpre
      · rw [hidx]
        simpa using hget
    | error m =>
      simp only [happ] at h
      injection h with hx
      subst hx
      exact ⟨Nat.le_refl _, st, by simp [applyPrefix], s0, by simp, happ⟩

/-- When the statement runner succeeds, the result is the sequential
application of every statement. -/
theorem runTQL_ok_spec {St : Type}
    (apply : St → MutStatement → Except String St) :
    ∀ (stmts : List MutStatement) (k : Nat) (st st2 : St),
      runTQLMutationModel apply k st stmts = Except.ok st2 →
      applyPrefix apply st stmts = some st2 := by
  intro stmts
  induction stmts with
  | nil =>
    intro k st st2 h
    simp [runTQLMutationModel] at h
    simp [applyPrefix, h]
  | cons s0 rest ih =>
    intro k st st2 h
    simp only [runTQLMutationModel] at h
    cases happ : apply st s0 with
    | ok stMid =>
      simp only [happ] at h
      simp only [applyPrefix, happ]
      exact ih (k + 1) stMid st2 h
    | error m => simp only [happ] at h; cases h

/-- C7: all statements of one mutation request commit as a single logical
transaction — on any failure the caller-visible state is the original one
(no partial effect) and the reported `MutationError` identifies the first
failing operation; on success the final state is the sequential application
of every statement. -/
theorem transactional_commit {St : Type}
    (apply : St → MutStatement → Except String St) (st : St)
    (stmts : List MutStatement) (st' : St) (e : MutationErrorReport) :
    (commitMutation apply st stmts = (st', some e) →
      st' = st
      ∧ ∃ s, applyPrefix apply st (stmts.take e.failingIndex) = some s
          ∧ ∃ stmt, stmts.get? e.failingIndex = some stmt
              ∧ apply s stmt = Except.error e.message)
    ∧ (∀ stOk : St, commitMutation apply st stmts = (stOk, none) →
        applyPrefix apply st stmts = some stOk) := by
  constructor
  · intro h
    unfold commitMutation at h
    cases hrun : runTQLMutationModel apply 0 st stmts with
    | ok st2 => rw [hrun] at h; cases h
    | error e2 =>
      rw [hrun] at h
      have hst : st = st' ∧ e2 = e := by
        constructor
        · exact congrArg Prod.fst h
        · have := congrArg Prod.snd h
          simpa using this
      obtain ⟨hst1, hst2⟩ := hst
      subst hst2
      obtain ⟨-, s, hpre, stmt, hget, herr⟩ := runTQL_error_spec apply stmts 0 st e2 hrun
      exact ⟨hst1.symm, s, by simpa using hpre, stmt, by simpa using hget, herr⟩
  · intro stOk h
    unfold commitMutation at h
    cases hrun : runTQLMutationModel apply 0 st stmts with
    | ok st2 =>
      rw [hrun] at h
      have : st2 = stOk := congrArg Prod.fst h
      subst this
      exact runTQL_ok_spec apply stmts 0 st st2 hrun
    | error e2 =>
      rw [hrun] at h
      have := congrArg Prod.snd h
      simp at this

/-- Witness for C7: a three-statement mutation whose second statement fails —
the visible state is unchanged and the error identifies index 1. -/
theorem transactional_commit_witness :
    commitMutation exApply 0 exStmts = (0, some ⟨1, ("boom")⟩)
    ∧ ((0 : Nat) = 0
       ∧ ∃ s, applyPrefix exApply 0 (exStmts.take 1) = some s
          ∧ ∃ stmt, exStmts.get? 1 = some stmt
              ∧ exApply s stmt = Except.error ("boom")) :=
  ⟨rfl, (transactional_commit exApply 0 exStmts 0 ⟨1, ("boom")⟩).1 rfl⟩

/-! ## C6: mutation parsing splits and topologically orders statements -/

/-- Generic segment ordering: in `A ++ B`, an element satisfying a predicate
absent from `B` sits before an element satisfying a predicate absent from
`A`. -/
theorem seg_order {α : Type} (l A B : List α) (hl : l = A ++ B)
    (P Q : α → Bool) (hPB : ∀ x ∈ B, P x = false) (hQA : ∀ x ∈ A, Q x = false)
    (i j : Nat) (hi : i < l.length) (hj : j < l.length)
    (hPi : P (l[i]) = true) (hQj : Q (l[j]) = true) : i < j := by
  subst hl
  have h1 : i < A.length := by
    by_contra hge
    push_neg at hge
    rw [List.getElem_append_right hge] at hPi
    rw [hPB _ (List.getElem_mem _)] at hPi
    cases hPi
  have h2 : A.length ≤ j := by
    by_contra hlt
    push_neg at hlt
    rw [List.getElem_append_left hlt] at hQj
    rw [hQA _ (List.getElem_mem _)] at hQj
    cases hQj
  omega

theorem isCreateThing_thing (op : MutOp) (tid : String) :
    (MutStatement.thing op tid).isCreateThing = (op == MutOp.create) := by
  cases op <;> rfl

theorem isDeleteThing_thing (op : MutOp) (tid : String) :
    (MutStatement.thing op tid).isDeleteThing = (op == MutOp.delete) := by
  cases op <;> rfl

theorem isLinkEdge_edge (op : MutOp) (a b : String) :
    (MutStatement.edge op a b).isLinkEdge = (op == MutOp.link) := by
  cases op <;> rfl

theorem isUnlinkEdge_edge (op : MutOp) (a b : String) :
    (MutStatement.edge op a b).isUnlinkEdge = (op == MutOp.unlink) := by
  cases op <;> rfl

/-- C6: parsing splits the mutation tree into things and edges, and the
compiled statement list is ordered topologically — every `create` thing
precedes every `link` edge that references its tempId, and every `unlink`
edge precedes the `delete` thing it references. -/
theorem mutation_statement_order (root : MutNode) :
    ∀ (i j : Nat)
      (hi : i < (orderedStatements (parseBQLMutationModel root)).length)
      (hj : j < (orderedStatements (parseBQLMutationModel root)).length),
      (((orderedStatements (parseBQLMutationModel root))[i]).isCreateThing = true →
        ((orderedStatements (parseBQLMutationModel root))[j]).isLinkEdge = true →
        (∃ t, t ∈ ((orderedStatements (parseBQLMutationModel root))[i]).refs
            ∧ t ∈ ((orderedStatements (parseBQLMutationModel root))[j]).refs) →
        i < j)
      ∧ (((orderedStatements (parseBQLMutationModel root))[i]).isUnlinkEdge = true →
          ((orderedStatements (parseBQLMutationModel root))[j]).isDeleteThing = true →
          (∃ t, t ∈ ((orderedStatements (parseBQLMutationModel root))[i]).refs
              ∧ t ∈ ((orderedStatements (parseBQLMutationModel root))[j]).refs) →
          i < j) := by
  intro i j hi hj
  constructor
  · intro hPi hQj _
    have hPB : ∀ x ∈ linkEdges (parseBQLMutationModel root)
        ++ (unlinkEdges (parseBQLMutationModel root)
            ++ deleteThings (parseBQLMutationModel root)),
        MutStatement.isCreateThing x = false := by
      intro x hx
      rcases List.mem_append.1 hx with hx | hx
      · obtain ⟨ew, -, rfl⟩ := List.mem_map.1 hx
        rfl
      · rcases List.mem_append.1 hx with hx | hx
        · obtain ⟨ew, -, rfl⟩ := List.mem_map.1 hx
          rfl
        · obtain ⟨tw, htw, rfl⟩ := List.mem_map.1 hx
          have hop : tw.1 = MutOp.delete := by
            simpa using (List.mem_filter.1 htw).2
          rw [isCreateThing_thing, hop]
          rfl
    have hQA : ∀ x ∈ thingsNonDelete (parseBQLMutationModel root),
        MutStatement.isLinkEdge x = false := by
      intro x hx
      obtain ⟨tw, -, rfl⟩ := List.mem_map.1 hx
      rfl
    exact seg_order _ (thingsNonDelete (parseBQLMutationModel root))
      (linkEdges (parseBQLMutationModel root)
        ++ (unlinkEdges (parseBQLMutationModel root)
            ++ deleteThings (parseBQLMutationModel root)))
      (by simp [orderedStatements, List.append_assoc])
      MutStatement.isCreateThing MutStatement.isLinkEdge hPB hQA
      i j hi hj hPi hQj
  · intro hPi hQj _
    have hPB : ∀ x ∈ deleteThings (parseBQLMutationModel root),
        MutStatement.isUnlinkEdge x = false := by
      intro x hx
      obtain ⟨tw, -, rfl⟩ := List.mem_map.1 hx
      rfl
    have hQA : ∀ x ∈ thingsNonDelete (parseBQLMutationModel root)
        ++ linkEdges (parseBQLMutationModel root)
        ++ unlinkEdges (parseBQLMutationModel root),
        MutStatement.isDeleteThing x = false := by
      intro x hx
      rcases List.mem_append.1 hx with hx | hx
      · rcases List.mem_append.1 hx with hx | hx
        · obtain ⟨tw, htw, rfl⟩ := List.mem_map.1 hx
          have hop : tw.1 ≠ MutOp.delete := by
            simpa using (List.mem_filter.1 htw).2
          rw [isDeleteThing_thing]
          simpa using hop
        · obtain ⟨ew, -, rfl⟩ := List.mem_map.1 hx
          rfl
      · obtain ⟨ew, -, rfl⟩ := List.mem_map.1 hx
        rfl
    exact seg_order _
      (thingsNonDelete (parseBQLMutationModel root)
        ++ linkEdges (parseBQLMutationModel root)
        ++ unlinkEdges (parseBQLMutationModel root))
      (deleteThings (parseBQLMutationModel root))
      rfl MutStatement.isUnlinkEdge MutStatement.isDeleteThing hPB hQA
      i j hi hj hPi hQj

/-- Witness for C6: in the example mutation tree, the `create` of `p` (index
0) precedes the `link` edge referencing it (index 2), and the `unlink` edge
referencing `d` (index 3) precedes the `delete` of `d` (index 4). -/
theorem mutation_statement_order_witness : (0 : Nat) < 2 ∧ (3 : Nat) < 4 :=
  ⟨(mutation_statement_order exampleMutRoot 0 2 (by decide) (by decide)).1
      (by decide) (by decide) ⟨("p"), by decide, by decide⟩,
   (mutation_statement_order exampleMutRoot 3 4 (by decide) (by decide)).2
      (by decide) (by decide) ⟨("d"), by decide, by decide⟩⟩

/-! ## Lookup through the duplicate-key merge -/

/-- Looking a key up after `mergeDup` yields the reference combination of the
values produced for that key. -/
theorem mergeDup_lookup : ∀ (l : List (String × BVal)) (k : String),
    lookupKey (mergeDup l) k = combineValuesAt l k
  | [], k => by simp [mergeDup, combineValuesAt, lookupKey]
  | kv :: rest, k => by
    rw [mergeDup]
    cases hdup : rest.any (fun kv2 => kv2.1 == kv.1) with
    | true =>
      simp only [hdup, if_true]
      cases hk : (kv.1 == k) with
      | true =>
        have hkeq : kv.1 = k := by simpa using hk
        subst hkeq
        obtain ⟨x, hxmem, hxpred⟩ := List.any_eq_true.1 hdup
        cases hfil : rest.filter (fun kv2 => kv2.1 == kv.1) with
        | nil =>
          have hxin : x ∈ rest.filter (fun kv2 => kv2.1 == kv.1) :=
            List.mem_filter.2 ⟨hxmem, hxpred⟩
          rw [hfil] at hxin
          cases hxin
        | cons c cs =>
          rw [lookupKey, combineValuesAt]
          simp [List.filter_cons, hfil]
      | false =>
        rw [lookupKey]
        simp only [hk, Bool.false_eq_true, if_false]
        rw [mergeDup_lookup (rest.filter (fun kv2 => kv2.1 != kv.1)) k]
        rw [combineValuesAt, combineValuesAt]
        have hs : (rest.filter (fun kv2 => kv2.1 != kv.1)).filter
            (fun kv2 => kv2.1 == k) = (kv :: rest).filter (fun kv2 => kv2.1 == k) := by
          rw [List.filter_filter]
          rw [List.filter_cons]
          simp only [hk, Bool.false_eq_true, if_false]
          refine List.filter_congr ?_
          intro a ha
          cases ha2 : (a.1 == k) with
          | true =>
            have haeq : a.1 = k := by simpa using ha2
            subst haeq
            have hne : (a.1 == kv.1) = false := by
              cases h3 : (a.1 == kv.1) with
              | true =>
                have h4 : a.1 = kv.1 := by simpa using h3
                rw [← h4] at hk
                simp at hk
              | false => rfl
            simp [bne, hne]
          | false => simp [ha2]
        rw [hs]
    | false =>
      simp only [hdup, Bool.false_eq_true, if_false]
      have hdup2 : ∀ y ∈ rest, (y.1 == kv.1) = false := by
        intro y hy
        cases h7 : (y.1 == kv.1) with
        | false => rfl
        | true =>
          have h8 : rest.any (fun kv2 => kv2.1 == kv.1) = true :=
            List.any_eq_true.2 ⟨y, hy, h7⟩
          rw [h8] at hdup
          cases hdup
      cases hk : (kv.1 == k) with
      | true =>
        have hkeq : kv.1 = k := by simpa using hk
        subst hkeq
        rw [lookupKey, combineValuesAt]
        have hnil : rest.filter (fun kv2 => kv2.1 == kv.1) = [] := by
          rw [List.filter_eq_nil_iff]
          intro a ha
          simp [hdup2 a ha]
        simp [List.filter_cons, hnil]
      | false =>
        rw [lookupKey]
        simp only [hk, Bool.false_eq_true, if_false]
        rw [mergeDup_lookup rest k]
        rw [combineValuesAt, combineValuesAt]
        have hs : rest.filter (fun kv2 => kv2.1 == k)
            = (kv :: rest).filter (fun kv2 => kv2.1 == k) := by
          rw [List.filter_cons]
          simp only [hk, Bool.false_eq_true, if_false]
        rw [hs]
termination_by l _ => l.length
decreasing_by
  all_goals simp only [List.length_cons]
  all_goals first
    | exact Nat.lt_succ_of_le (List.length_filter_le _ _)
    | exact Nat.lt_succ_self _

/-! ## Keys and lookups of built response nodes -/

/-- A type found in a well-formed schema is well formed. -/
theorem wellFormedType_of_lookup (s : BormSchema) (n : String) (t : TypeDef)
    (hwf : wellFormedSchema s = true) (hl : BormSchema.lookup s n = some t) :
    wellFormedType t = true := by
  have hmem : t ∈ s.types := List.mem_of_find?_eq_some hl
  exact List.all_eq_true.1 hwf t hmem

/-- `buildObj` unfolded through `bodyPairs`. -/
theorem buildObj_eq (schema : BormSchema) (db : DB) (opts : QueryOptions)
    (t : TypeDef) (tname : String) (fields : Option (List FieldSel))
    (excl : List String) (i : ThingInstance) :
    buildObj schema db opts t tname fields excl i
      = BVal.vobj ((mergeDup (metaPairs opts t tname i
          ++ bodyPairs schema db opts t i fields)).filter
        (fun kv => !(excl.contains kv.1))) := by
  cases fields with
  | none => simp [buildObj, bodyPairs]
  | some fs => simp [buildObj, bodyPairs]

/-- Filtering out excluded keys does not change the lookup of a key that is
not excluded. -/
theorem lookupKey_filter_excl (l : List (String × BVal)) (excl : List String)
    (k : String) (h : excl.contains k = false) :
    lookupKey (l.filter (fun kv => !(excl.contains kv.1))) k = lookupKey l k := by
  induction l with
  | nil => rfl
  | cons kv rest ih =>
    rw [List.filter_cons]
    cases hkv : excl.contains kv.1 with
    | false =>
      simp only [hkv, Bool.not_false, if_true]
      rw [lookupKey, lookupKey]
      cases hk : (kv.1 == k) with
      | true => simp
      | false => simpa [hk] using ih
    | true =>
      have hne : (kv.1 == k) = false := by
        cases h2 : (kv.1 == k) with
        | false => rfl
        | true =>
          have : kv.1 = k := by simpa using h2
          rw [this] at hkv
          rw [hkv] at h
          cases h
      simp only [hkv, Bool.not_true, Bool.false_eq_true, if_false]
      rw [lookupKey]
      simpa [hne] using ih

/-- The lookup of a non-excluded key in a built node is the combination of
the values its key received from metadata and requested fields. -/
theorem buildObj_lookup (schema : BormSchema) (db : DB) (opts : QueryOptions)
    (t : TypeDef) (tname : String) (fields : Option (List FieldSel))
    (excl : List String) (i : ThingInstance) (k : String)
    (hexcl : excl.contains k = false) :
    BVal.lookup (buildObj schema db opts t tname fields excl i) k
      = combineValuesAt (metaPairs opts t tname i
          ++ bodyPairs schema db opts t i fields) k := by
  rw [buildObj_eq]
  show lookupKey _ k = _
  rw [lookupKey_filter_excl _ _ _ hexcl]
  exact mergeDup_lookup _ k

/-- A produced bare-field pair carries the requested name as key, and that
name resolves in the schema. -/
theorem plainFieldPair_some (opts : QueryOptions) (t : TypeDef)
    (i : ThingInstance) (f : String) (kv : String × BVal)
    (h : plainFieldPair opts t i f = some kv) :
    kv.1 = f ∧ (hasAttr t f = true ∨ (findLinkField t f).isSome = true) := by
  unfold plainFieldPair at h
  cases ha : hasAttr t f with
  | true =>
    simp only [ha, if_true] at h
    cases hl : lookupAttr i f with
    | some v =>
      simp only [hl] at h
      cases h
      exact ⟨rfl, Or.inl rfl⟩
    | none =>
      simp only [hl] at h
      cases hr : opts.returnNulls with
      | true =>
        simp only [hr, if_true] at h
        cases h
        exact ⟨rfl, Or.inl rfl⟩
      | false => simp only [hr, Bool.false_eq_true, if_false] at h; cases h
  | false =>
    simp only [ha, Bool.false_eq_true, if_false] at h
    cases hlf : findLinkField t f with
    | none => simp only [hlf] at h; cases h
    | some lf =>
      simp only [hlf] at h
      cases hls : lookupLinks i f with
      | nil =>
        simp only [hls] at h
        cases hr : opts.returnNulls with
        | true =>
          simp only [hr, if_true] at h
          cases h
          exact ⟨rfl, Or.inr rfl⟩
        | false => simp only [hr, Bool.false_eq_true, if_false] at h; cases h
      | cons id0 restIds =>
        simp only [hls] at h
        cases hc : lf.cardMany with
        | true =>
          simp only [hc, if_true] at h
          cases h
          exact ⟨rfl, Or.inr rfl⟩
        | false =>
          simp only [hc, Bool.false_eq_true, if_false] at h
          cases h
          exact ⟨rfl, Or.inr rfl⟩

/-- A name that resolves in a well-formed type is not a metadata key. -/
theorem resolvable_not_meta (t : TypeDef) (f : String)
    (hwfT : wellFormedType t = true)
    (h : hasAttr t f = true ∨ (findLinkField t f).isSome = true) :
    metaKeys.contains f = false := by
  unfold wellFormedType at hwfT
  rw [Bool.and_eq_true] at hwfT
  obtain ⟨hattrs, hlfs⟩ := hwfT
  cases h with
  | inl ha =>
    obtain ⟨ad, hmem, hpred⟩ := List.any_eq_true.1 ha
    have hname : ad.name = f := by simpa using hpred
    have := List.all_eq_true.1 hattrs ad hmem
    rw [hname] at this
    simpa using this
  | inr hlf =>
    cases hfind : findLinkField t f with
    | none => rw [hfind] at hlf; cases hlf
    | some lf =>
      rw [findLinkField] at hfind
      have hmem : lf ∈ t.linkFields := List.mem_of_find?_eq_some hfind
      have hpred := List.find?_some hfind
      have hname : lf.name = f := by simpa using hpred
      have := List.all_eq_true.1 hlfs lf hmem
      rw [hname] at this
      simpa using this

/-- A produced selection pair carries the selection's key, and that key
resolves in the schema. -/
theorem buildField_some_key (schema : BormSchema) (db : DB)
    (opts : QueryOptions) (t : TypeDef) (i : ThingInstance) (f : FieldSel)
    (kv : String × BVal) (h : buildField schema db opts t i f = some kv) :
    kv.1 = FieldSel.key f
    ∧ (hasAttr t kv.1 = true ∨ (findLinkField t kv.1).isSome = true) := by
  cases f with
  | plain g =>
    rw [buildField] at h
    obtain ⟨hk, hres⟩ := plainFieldPair_some opts t i g kv h
    exact ⟨hk, by rw [hk]; exact hres⟩
  | nested p c =>
    rw [buildField] at h
    cases hlf : findLinkField t p with
    | none => simp only [hlf] at h; cases h
    | some lf =>
      simp only [hlf] at h
      have hk : kv.1 = p := by
        cases hb : buildNode schema db opts lf.target (some (lookupLinks i p)) c with
        | vnull =>
          simp only [hb] at h
          cases hr : opts.returnNulls with
          | true => simp only [hr, if_true] at h; cases h; rfl
          | false => simp only [hr, Bool.false_eq_true, if_false] at h; cases h
        | vstr s => simp only [hb] at h; cases h; rfl
        | vobj fs => simp only [hb] at h; cases h; rfl
        | varr xs =>
          cases xs with
          | nil =>
            simp only [hb] at h
            cases hr : opts.returnNulls with
            | true => simp only [hr, if_true] at h; cases h; rfl
            | false => simp only [hr, Bool.false_eq_true, if_false] at h; cases h
          | cons y ys => simp only [hb] at h; cases h; rfl
      refine ⟨hk, Or.inr ?_⟩
      rw [hk, hlf]
      rfl

/-- `buildFieldList` distributes over list append. -/
theorem buildFieldList_append (schema : BormSchema) (db : DB)
    (opts : QueryOptions) (t : TypeDef) (i : ThingInstance)
    (fs1 fs2 : List FieldSel) :
    buildFieldList schema db opts t i (fs1 ++ fs2)
      = buildFieldList schema db opts t i fs1
        ++ buildFieldList schema db opts t i fs2 := by
  induction fs1 with
  | nil => simp [buildFieldList]
  | cons f rest ih =>
    rw [List.cons_append, buildFieldList, buildFieldList]
    cases buildField schema db opts t i f with
    | none => simpa using ih
    | some kv => simpa using ih

/-- Every pair of `buildFieldList` comes from some selection via
`buildField`. -/
theorem buildFieldList_mem (schema : BormSchema) (db : DB)
    (opts : QueryOptions) (t : TypeDef) (i : ThingInstance)
    (fs : List FieldSel) (kv : String × BVal)
    (hmem : kv ∈ buildFieldList schema db opts t i fs) :
    ∃ f, f ∈ fs ∧ buildField schema db opts t i f = some kv := by
  induction fs with
  | nil => rw [buildFieldList] at hmem; cases hmem
  | cons f rest ih =>
    rw [buildFieldList] at hmem
    cases hbf : buildField schema db opts t i f with
    | none =>
      rw [hbf] at hmem
      obtain ⟨g, hg, hgeq⟩ := ih hmem
      exact ⟨g, List.mem_cons_of_mem f hg, hgeq⟩
    | some kv0 =>
      rw [hbf] at hmem
      rcases List.mem_cons.1 hmem with heq | hmem2
      · exact ⟨f, List.mem_cons_self f rest, by rw [hbf, heq]⟩
      · obtain ⟨g, hg, hgeq⟩ := ih hmem2
        exact ⟨g, List.mem_cons_of_mem f hg, hgeq⟩

/-- Every key produced by `bodyPairs` resolves in the schema (it is an
attribute or linkfield name). -/
theorem bodyPairs_resolvable (schema : BormSchema) (db : DB)
    (opts : QueryOptions) (t : TypeDef) (i : ThingInstance)
    (fields : Option (List FieldSel)) (kv : String × BVal)
    (hmem : kv ∈ bodyPairs schema db opts t i fields) :
    hasAttr t kv.1 = true ∨ (findLinkField t kv.1).isSome = true := by
  cases fields with
  | none =>
    rw [bodyPairs] at hmem
    obtain ⟨f, -, hp⟩ := List.mem_filterMap.1 hmem
    obtain ⟨hk, hres⟩ := plainFieldPair_some opts t i f kv hp
    rw [hk]
    exact hres
  | some fs =>
    rw [bodyPairs] at hmem
    obtain ⟨f, -, hf⟩ := buildFieldList_mem schema db opts t i fs kv hmem
    exact (buildField_some_key schema db opts t i f kv hf).2

/-- In a well-formed type, `bodyPairs` never produces a metadata key:
filtering its pairs for a metadata key yields nothing. -/
theorem bodyPairs_filter_meta_nil (schema : BormSchema) (db : DB)
    (opts : QueryOptions) (t : TypeDef) (i : ThingInstance)
    (fields : Option (List FieldSel)) (g : String)
    (hwfT : wellFormedType t = true) (hg : metaKeys.contains g = true) :
    (bodyPairs schema db opts t i fields).filter (fun kv => kv.1 == g) = [] := by
  rw [List.filter_eq_nil_iff]
  intro kv hmem
  have hres := bodyPairs_resolvable schema db opts t i fields kv hmem
  have hnm := resolvable_not_meta t kv.1 hwfT hres
  intro hbeq
  have : kv.1 = g := by simpa using hbeq
  rw [this] at hnm
  rw [hnm] at hg
  cases hg

/-- Filtering the requested-field pairs for a key no selection carries yields
nothing. -/
theorem buildFieldList_filter_nil (schema : BormSchema) (db : DB)
    (opts : QueryOptions) (t : TypeDef) (i : ThingInstance)
    (fs : List FieldSel) (g : String)
    (hg : (fieldKeys fs).contains g = false) :
    (buildFieldList schema db opts t i fs).filter (fun kv => kv.1 == g) = [] := by
  rw [List.filter_eq_nil_iff]
  intro kv hmem
  obtain ⟨f, hf, hfeq⟩ := buildFieldList_mem schema db opts t i fs kv hmem
  have hk : kv.1 = FieldSel.key f :=
    (buildField_some_key schema db opts t i f kv hfeq).1
  intro hbeq
  have hkey : kv.1 = g := by simpa using hbeq
  have hmemk : FieldSel.key f ∈ fieldKeys fs := List.mem_map_of_mem FieldSel.key hf
  rw [← hk, hkey] at hmemk
  have : (fieldKeys fs).contains g = true := List.elem_eq_true_of_mem hmemk
  rw [this] at hg
  cases hg

/-- Filtering the metadata pairs for a non-metadata key yields nothing. -/
theorem metaPairs_filter_nil (opts : QueryOptions) (t : TypeDef)
    (tname : String) (i : ThingInstance) (g : String)
    (hg : metaKeys.contains g = false) :
    (metaPairs opts t tname i).filter (fun kv => kv.1 == g) = [] := by
  have hgs : g ≠ ("$entity") ∧ g ≠ ("$relation") ∧ g ≠ ("$id") := by
    simpa [metaKeys] using hg
  rw [metaPairs]
  cases hm : opts.noMetadata with
  | true => simp
  | false =>
    simp only [Bool.false_eq_true, if_false]
    cases hr : t.isRelation with
    | true =>
      simp only [hr, if_true]
      simp [List.filter_cons, Ne.symm hgs.2.1, Ne.symm hgs.2.2]
    | false =>
      simp only [hr, Bool.false_eq_true, if_false]
      simp [List.filter_cons, Ne.symm hgs.1, Ne.symm hgs.2.2]

/-- With metadata on, the `$id` key of a built node holds the instance id. -/
theorem combine_id_lookup (schema : BormSchema) (db : DB) (opts : QueryOptions)
    (t : TypeDef) (tname : String) (i : ThingInstance)
    (fields : Option (List FieldSel))
    (hm : opts.noMetadata = false) (hwfT : wellFormedType t = true) :
    combineValuesAt (metaPairs opts t tname i
        ++ bodyPairs schema db opts t i fields) ("$id")
      = some (BVal.vstr i.id) := by
  rw [combineValuesAt, List.filter_append]
  rw [bodyPairs_filter_meta_nil schema db opts t i fields ("$id") hwfT (by rfl)]
  rw [metaPairs]
  simp only [hm, Bool.false_eq_true, if_false]
  cases hr : t.isRelation with
  | true => simp
  | false => simp

/-! ## C2: not-found reads succeed; a resolved single id is echoed in `$id` -/

/-- C2: a read whose id-filter matches nothing succeeds — it returns `null`
when the node is singular and an empty array when it is plural; and a read
resolving a single id returns one object whose `$id` equals the requested
id. -/
theorem notFound_null_and_id_match (schema : BormSchema) (db : DB)
    (opts : QueryOptions) (tname : String) (t : TypeDef) (idf : IdFilter)
    (flt : List (String × String)) (fields : Option (List FieldSel))
    (excl : List String)
    (hlook : BormSchema.lookup schema tname = some t)
    (hwf : wellFormedSchema schema = true) :
    (candidates db tname none idf flt = [] →
      runQueryModel schema db opts
          { entity := some tname, relation := none,
            node := QueryNode.mk idf flt fields excl }
        = Except.ok (if singularNode t idf flt then BVal.vnull else BVal.varr []))
    ∧ (∀ (x : String) (i : ThingInstance) (rest : List ThingInstance),
        idf = IdFilter.one x →
        candidates db tname none idf flt = i :: rest →
        opts.noMetadata = false →
        excl.contains ("$id") = false →
        ∃ fs, runQueryModel schema db opts
            { entity := some tname, relation := none,
              node := QueryNode.mk idf flt fields excl }
          = Except.ok (BVal.vobj fs)
          ∧ lookupKey fs ("$id") = some (BVal.vstr x)) := by
  have hparse : parseBQLQueryModel schema
      { entity := some tname, relation := none,
        node := QueryNode.mk idf flt fields excl }
      = Except.ok (tname, QueryNode.mk idf flt fields excl) := by
    simp [parseBQLQueryModel, hlook]
  constructor
  · intro hc
    cases hs : singularNode t idf flt with
    | true =>
      simp [runQueryModel, hparse, buildBQLTreeModel, buildNode, hlook, hc, hs]
    | false =>
      simp [runQueryModel, hparse, buildBQLTreeModel, buildNode, hlook, hc, hs,
        buildObjList]
  · intro x i rest hidf hc hm hexcl
    subst hidf
    have hrun : runQueryModel schema db opts
        { entity := some tname, relation := none,
          node := QueryNode.mk (IdFilter.one x) flt fields excl }
        = Except.ok (buildObj schema db opts t tname fields excl i) := by
      simp [runQueryModel, hparse, buildBQLTreeModel, buildNode, hlook, hc,
        singularNode]
    have hobj := buildObj_eq schema db opts t tname fields excl i
    have hwfT := wellFormedType_of_lookup schema tname t hwf hlook
    have hlk := buildObj_lookup schema db opts t tname fields excl i ("$id") hexcl
    rw [combine_id_lookup schema db opts t tname i fields hm hwfT] at hlk
    rw [hobj] at hlk
    have hid : i.id = x := by
      have hi : i ∈ candidates db tname none (IdFilter.one x) flt := by
        rw [hc]
        exact List.mem_cons_self _ _
      rw [candidates] at hi
      have h2 := (List.mem_filter.1 hi).2
      simp only [Bool.and_eq_true] at h2
      have h3 := h2.1.2
      simpa [matchesId] using h3
    refine ⟨(mergeDup (metaPairs opts t tname i
        ++ bodyPairs schema db opts t i fields)).filter
        (fun kv => !(excl.contains kv.1)), ?_, ?_⟩
    · rw [hrun, hobj]
    · rw [← hid]
      exact hlk

/-- Witness for C2 on the test fixtures: an unknown single id yields `null`
(test v3), and `$id: "user1"` yields one object whose `$id` is `user1`
(test ef1). -/
theorem notFound_null_and_id_match_witness :
    BormSchema.lookup testSchema ("User") = some userType
    ∧ wellFormedSchema testSchema = true
    ∧ runQueryModel testSchema testDB optsPlain
        { entity := some ("User"), relation := none,
          node := QueryNode.mk (IdFilter.one ("nonExisting")) []
            (some [FieldSel.plain ("name")]) [] }
      = Except.ok (if singularNode userType (IdFilter.one ("nonExisting")) []
          then BVal.vnull else BVal.varr [])
    ∧ (∃ fs, runQueryModel testSchema testDB optsPlain
          { entity := some ("User"), relation := none,
            node := QueryNode.mk (IdFilter.one ("user1")) []
              (some [FieldSel.plain ("name")]) [] }
        = Except.ok (BVal.vobj fs)
        ∧ lookupKey fs ("$id") = some (BVal.vstr ("user1"))) :=
  ⟨rfl, rfl,
   (notFound_null_and_id_match testSchema testDB optsPlain ("User") userType
      (IdFilter.one ("nonExisting")) [] (some [FieldSel.plain ("name")]) []
      rfl rfl).1 rfl,
   (notFound_null_and_id_match testSchema testDB optsPlain ("User") userType
      (IdFilter.one ("user1")) [] (some [FieldSel.plain ("name")]) []
      rfl rfl).2 ("user1") user1 [] rfl rfl rfl rfl⟩

/-! ## C1: the per-node singular/plural collapse -/

/-- C1: at every node (the builder applies this rule at every depth via
`buildField`), the result is a single object iff the node's §4.1 decision is
singular — single id-filter or unique-anchored value-filter — and some
instance matches; it is `null` iff the decision is singular and nothing
matches; it is an array iff the decision is plural, even when exactly one
instance matches; and a nested selection carrying a single `$id` always
collapses to a single object (or is omitted/null), even on a plural role. -/
theorem singular_plural_shape (schema : BormSchema) (db : DB)
    (opts : QueryOptions) (tname : String) (t : TypeDef)
    (allowed : Option (List String)) (idf : IdFilter)
    (flt : List (String × String)) (fields : Option (List FieldSel))
    (excl : List String)
    (hlook : BormSchema.lookup schema tname = some t) :
    ((∃ fs, buildNode schema db opts tname allowed
        (QueryNode.mk idf flt fields excl) = BVal.vobj fs)
      ↔ (singularNode t idf flt = true
         ∧ candidates db tname allowed idf flt ≠ []))
    ∧ (buildNode schema db opts tname allowed
        (QueryNode.mk idf flt fields excl) = BVal.vnull
      ↔ (singularNode t idf flt = true
         ∧ candidates db tname allowed idf flt = []))
    ∧ ((∃ xs, buildNode schema db opts tname allowed
        (QueryNode.mk idf flt fields excl) = BVal.varr xs)
      ↔ singularNode t idf flt = false)
    ∧ (∀ (p x : String) (cflt : List (String × String))
        (cfields : Option (List FieldSel)) (cexcl : List String)
        (i : ThingInstance) (pair : String × BVal),
        buildField schema db opts t i
          (FieldSel.nested p (QueryNode.mk (IdFilter.one x) cflt cfields cexcl))
          = some pair →
        pair.2 ≠ BVal.vnull →
        ∃ fs, pair.2 = BVal.vobj fs) := by
  have hnest : ∀ (p x : String) (cflt : List (String × String))
      (cfields : Option (List FieldSel)) (cexcl : List String)
      (i : ThingInstance) (pair : String × BVal),
      buildField schema db opts t i
        (FieldSel.nested p (QueryNode.mk (IdFilter.one x) cflt cfields cexcl))
        = some pair →
      pair.2 ≠ BVal.vnull →
      ∃ fs, pair.2 = BVal.vobj fs := by
    intro p x cflt cfields cexcl i pair hbf hne
    rw [buildField] at hbf
    cases hlf : findLinkField t p with
    | none => simp only [hlf] at hbf; cases hbf
    | some lf =>
      simp only [hlf] at hbf
      cases hlook2 : BormSchema.lookup schema lf.target with
      | none =>
        have hbn : buildNode schema db opts lf.target (some (lookupLinks i p))
            (QueryNode.mk (IdFilter.one x) cflt cfields cexcl) = BVal.vnull := by
          simp [buildNode, hlook2]
        rw [hbn] at hbf
        cases hr : opts.returnNulls with
        | true =>
          simp only [hr, if_true] at hbf
          cases hbf
          exact absurd rfl hne
        | false => simp only [hr, Bool.false_eq_true, if_false] at hbf; cases hbf
      | some t2 =>
        cases hc : candidates db lf.target (some (lookupLinks i p))
            (IdFilter.one x) cflt with
        | nil =>
          have hbn : buildNode schema db opts lf.target (some (lookupLinks i p))
              (QueryNode.mk (IdFilter.one x) cflt cfields cexcl) = BVal.vnull := by
            simp [buildNode, hlook2, singularNode, hc]
          rw [hbn] at hbf
          cases hr : opts.returnNulls with
          | true =>
            simp only [hr, if_true] at hbf
            cases hbf
            exact absurd rfl hne
          | false => simp only [hr, Bool.false_eq_true, if_false] at hbf; cases hbf
        | cons j js =>
          have hbn : buildNode schema db opts lf.target (some (lookupLinks i p))
              (QueryNode.mk (IdFilter.one x) cflt cfields cexcl)
              = buildObj schema db opts t2 lf.target cfields cexcl j := by
            simp [buildNode, hlook2, singularNode, hc]
          rw [hbn, buildObj_eq] at hbf
          cases hbf
          exact ⟨_, rfl⟩
  cases hs : singularNode t idf flt with
  | true =>
    cases hc : candidates db tname allowed idf flt with
    | nil =>
      have hbn : buildNode schema db opts tname allowed
          (QueryNode.mk idf flt fields excl) = BVal.vnull := by
        simp [buildNode, hlook, hs, hc]
      refine ⟨?_, ?_, ?_, hnest⟩
      · simp [hbn, hc]
      · simp [hbn, hc]
      · simp [hbn, hs]
    | cons i rest =>
      have hbn : buildNode schema db opts tname allowed
          (QueryNode.mk idf flt fields excl)
          = buildObj schema db opts t tname fields excl i := by
        simp [buildNode, hlook, hs, hc]
      refine ⟨?_, ?_, ?_, hnest⟩
      · simp [hbn, buildObj_eq, hc]
      · simp [hbn, buildObj_eq, hc]
      · simp [hbn, buildObj_eq, hs]
  | false =>
    have hbn : buildNode schema db opts tname allowed
        (QueryNode.mk idf flt fields excl)
        = BVal.varr (buildObjList schema db opts t tname fields excl
            (candidates db tname allowed idf flt)) := by
      simp [buildNode, hlook, hs]
    refine ⟨?_, ?_, ?_, hnest⟩
    · simp [hbn, hs]
    · simp [hbn, hs]
    · simp [hbn]

/-- Witness for C1 at test ef5: a non-unique filter (`name = "Antoine"`)
yields an array even though exactly one user matches. -/
theorem singular_plural_shape_witness :
    ∃ xs, buildNode testSchema testDB optsPlain ("User") none
        (QueryNode.mk IdFilter.noId [(("name"), ("Antoine"))]
          (some [FieldSel.plain ("name")]) [])
      = BVal.varr xs :=
  (singular_plural_shape testSchema testDB optsPlain ("User") userType none
      IdFilter.noId [(("name"), ("Antoine"))] (some [FieldSel.plain ("name")])
      [] rfl).2.2.1.mpr rfl

/-! ## C5: returnNulls substitutes null, otherwise the key is omitted -/

/-- C5: with an explicit field list, every requested field absent on the
instance — an attribute with no value, or a linkfield with no role-links —
appears with value `null` under `returnNulls: true`, and is omitted entirely
without the option. -/
theorem returnNulls_absent_field (schema : BormSchema) (db : DB)
    (t : TypeDef) (tname : String) (m : Bool) (fs1 fs2 : List FieldSel)
    (f : String) (excl : List String) (i : ThingInstance)
    (hwfT : wellFormedType t = true)
    (habsent : (hasAttr t f = true ∧ lookupAttr i f = none)
      ∨ (hasAttr t f = false ∧ (findLinkField t f).isSome = true
         ∧ lookupLinks i f = []))
    (hf1 : (fieldKeys fs1).contains f = false)
    (hf2 : (fieldKeys fs2).contains f = false)
    (hexcl : excl.contains f = false) :
    BVal.lookup (buildObj schema db { noMetadata := m, returnNulls := true }
        t tname (some (fs1 ++ [FieldSel.plain f] ++ fs2)) excl i) f
      = some BVal.vnull
    ∧ BVal.lookup (buildObj schema db { noMetadata := m, returnNulls := false }
        t tname (some (fs1 ++ [FieldSel.plain f] ++ fs2)) excl i) f
      = none := by
  have hres : hasAttr t f = true ∨ (findLinkField t f).isSome = true := by
    rcases habsent with ⟨h1, -⟩ | ⟨-, h2, -⟩
    · exact Or.inl h1
    · exact Or.inr h2
  have hnm : metaKeys.contains f = false := resolvable_not_meta t f hwfT hres
  have hmid : ∀ r : Bool,
      buildFieldList schema db { noMetadata := m, returnNulls := r } t i
        [FieldSel.plain f]
      = if r then [(f, BVal.vnull)] else [] := by
    intro r
    rcases habsent with ⟨h1, h2⟩ | ⟨h1, h2, h3⟩
    · cases r with
      | true => simp [buildFieldList, buildField, plainFieldPair, h1, h2]
      | false => simp [buildFieldList, buildField, plainFieldPair, h1, h2]
    · obtain ⟨lf, hlf⟩ := Option.isSome_iff_exists.1 h2
      cases r with
      | true => simp [buildFieldList, buildField, plainFieldPair, h1, hlf, h3]
      | false => simp [buildFieldList, buildField, plainFieldPair, h1, hlf, h3]
  constructor
  · rw [buildObj_lookup schema db _ t tname _ excl i f hexcl]
    rw [combineValuesAt, List.filter_append]
    rw [metaPairs_filter_nil _ _ _ _ _ hnm]
    rw [bodyPairs]
    rw [buildFieldList_append, buildFieldList_append]
    rw [List.filter_append, List.filter_append]
    rw [buildFieldList_filter_nil _ _ _ _ _ _ _ hf1]
    rw [buildFieldList_filter_nil _ _ _ _ _ _ _ hf2]
    rw [hmid true]
    simp [List.filter_cons]
  · rw [buildObj_lookup schema db _ t tname _ excl i f hexcl]
    rw [combineValuesAt, List.filter_append]
    rw [metaPairs_filter_nil _ _ _ _ _ hnm]
    rw [bodyPairs]
    rw [buildFieldList_append, buildFieldList_append]
    rw [List.filter_append, List.filter_append]
    rw [buildFieldList_filter_nil _ _ _ _ _ _ _ hf1]
    rw [buildFieldList_filter_nil _ _ _ _ _ _ _ hf2]
    rw [hmid false]
    simp

/-- Witness for C5 at test opt3a: `user4` has no `spaces` links and no
`email`; requesting both yields `spaces: null` and `email: null` with
`returnNulls` and omits both keys without it. -/
theorem returnNulls_absent_field_witness :
    wellFormedType userType = true
    ∧ hasAttr userType ("spaces") = false
    ∧ (findLinkField userType ("spaces")).isSome = true
    ∧ lookupLinks user4 ("spaces") = []
    ∧ lookupAttr user4 ("email") = none
    ∧ (BVal.lookup (buildObj testSchema testDB optsReturnNulls userType ("User")
        (some ([] ++ [FieldSel.plain ("spaces")] ++ [FieldSel.plain ("email")]))
        [] user4) ("spaces") = some BVal.vnull
      ∧ BVal.lookup (buildObj testSchema testDB optsPlain userType ("User")
        (some ([] ++ [FieldSel.plain ("spaces")] ++ [FieldSel.plain ("email")]))
        [] user4) ("spaces") = none)
    ∧ (BVal.lookup (buildObj testSchema testDB optsReturnNulls userType ("User")
        (some ([FieldSel.plain ("spaces")] ++ [FieldSel.plain ("email")] ++ []))
        [] user4) ("email") = some BVal.vnull
      ∧ BVal.lookup (buildObj testSchema testDB optsPlain userType ("User")
        (some ([FieldSel.plain ("spaces")] ++ [FieldSel.plain ("email")] ++ []))
        [] user4) ("email") = none) :=
  ⟨rfl, rfl, rfl, rfl, rfl,
   returnNulls_absent_field testSchema testDB userType ("User") false
     [] [FieldSel.plain ("email")] ("spaces") [] user4
     rfl (Or.inr ⟨rfl, rfl, rfl⟩) rfl rfl rfl,
   returnNulls_absent_field testSchema testDB userType ("User") false
     [FieldSel.plain ("spaces")] [] ("email") [] user4
     rfl (Or.inl ⟨rfl, rfl⟩) rfl rfl rfl⟩

/-! ## C8: a path selected twice combines both results -/

/-- C8: when the same nested path is selected twice with different per-path
selections, the built node carries, under that path, the combination of both
selections' results — neither is silently dropped. -/
theorem repeated_path_combined (schema : BormSchema) (db : DB)
    (opts : QueryOptions) (t : TypeDef) (tname : String)
    (fs1 fs2 fs3 : List FieldSel) (p : String) (c1 c2 : QueryNode)
    (v1 v2 : BVal) (excl : List String) (i : ThingInstance)
    (hwfT : wellFormedType t = true)
    (h1 : buildField schema db opts t i (FieldSel.nested p c1) = some (p, v1))
    (h2 : buildField schema db opts t i (FieldSel.nested p c2) = some (p, v2))
    (hk1 : (fieldKeys fs1).contains p = false)
    (hk2 : (fieldKeys fs2).contains p = false)
    (hk3 : (fieldKeys fs3).contains p = false)
    (hexcl : excl.contains p = false) :
    BVal.lookup (buildObj schema db opts t tname
        (some (fs1 ++ [FieldSel.nested p c1] ++ fs2
          ++ [FieldSel.nested p c2] ++ fs3)) excl i) p
      = some (BVal.varr (toItems v1 ++ toItems v2)) := by
  have hnm : metaKeys.contains p = false := by
    have hres := (buildField_some_key schema db opts t i
      (FieldSel.nested p c1) (p, v1) h1).2
    exact resolvable_not_meta t p hwfT hres
  rw [buildObj_lookup schema db opts t tname _ excl i p hexcl]
  rw [combineValuesAt, List.filter_append]
  rw [metaPairs_filter_nil _ _ _ _ _ hnm]
  rw [bodyPairs]
  rw [buildFieldList_append, buildFieldList_append, buildFieldList_append,
    buildFieldList_append]
  rw [List.filter_append, List.filter_append, List.filter_append,
    List.filter_append]
  rw [buildFieldList_filter_nil _ _ _ _ _ _ _ hk1]
  rw [buildFieldList_filter_nil _ _ _ _ _ _ _ hk2]
  rw [buildFieldList_filter_nil _ _ _ _ _ _ _ hk3]
  have hm1 : buildFieldList schema db opts t i [FieldSel.nested p c1]
      = [(p, v1)] := by
    simp [buildFieldList, h1]
  have hm2 : buildFieldList schema db opts t i [FieldSel.nested p c2]
      = [(p, v2)] := by
    simp [buildFieldList, h2]
  rw [hm1, hm2]
  simp [List.filter_cons]

/-- Witness for C8 at test re1: `users` selected twice on `space-2` with ids
`user1` and `user2` — the result combines both user objects. -/
theorem repeated_path_combined_witness :
    buildField testSchema testDB optsPlain spaceType space2
        (FieldSel.nested ("users")
          (QueryNode.mk (IdFilter.one ("user1")) []
            (some [FieldSel.plain ("id")]) []))
      = some (("users"), BVal.vobj
          [(("$entity"), BVal.vstr ("User")), (("$id"), BVal.vstr ("user1")),
           (("id"), BVal.vstr ("user1"))])
    ∧ BVal.lookup (buildObj testSchema testDB optsPlain spaceType ("Space")
        (some ([] ++ [FieldSel.nested ("users")
            (QueryNode.mk (IdFilter.one ("user1")) []
              (some [FieldSel.plain ("id")]) [])] ++ []
          ++ [FieldSel.nested ("users")
            (QueryNode.mk (IdFilter.one ("user2")) []
              (some [FieldSel.plain ("id")]) [])] ++ [])) [] space2) ("users")
      = some (BVal.varr
          (toItems (BVal.vobj
            [(("$entity"), BVal.vstr ("User")), (("$id"), BVal.vstr ("user1")),
             (("id"), BVal.vstr ("user1"))])
          ++ toItems (BVal.vobj
            [(("$entity"), BVal.vstr ("User")), (("$id"), BVal.vstr ("user2")),
             (("id"), BVal.vstr ("user2"))]))) :=
  ⟨by
    simp [buildField, buildNode, buildObj, buildFieldList, buildObjList,
      plainFieldPair, allFieldPairs, metaPairs, mergeDup, findLinkField,
      lookupLinks, lookupAttr, hasAttr, isUniqueAttr, singularNode, candidates,
      matchesId, matchesFilter, inAllowed, BormSchema.lookup, testSchema,
      spaceType, userType, accountType, space2, user1, user2, user4, account11,
      account21, space1, testDB, optsPlain, List.filter_cons, List.find?],
   repeated_path_combined testSchema testDB optsPlain spaceType ("Space")
     [] [] [] ("users")
     (QueryNode.mk (IdFilter.one ("user1")) [] (some [FieldSel.plain ("id")]) [])
     (QueryNode.mk (IdFilter.one ("user2")) [] (some [FieldSel.plain ("id")]) [])
     (BVal.vobj [(("$entity"), BVal.vstr ("User")),
       (("$id"), BVal.vstr ("user1")), (("id"), BVal.vstr ("user1"))])
     (BVal.vobj [(("$entity"), BVal.vstr ("User")),
       (("$id"), BVal.vstr ("user2")), (("id"), BVal.vstr ("user2"))])
     [] space2 rfl
     (by
       simp [buildField, buildNode, buildObj, buildFieldList, buildObjList,
         plainFieldPair, allFieldPairs, metaPairs, mergeDup, findLinkField,
         lookupLinks, lookupAttr, hasAttr, isUniqueAttr, singularNode,
         candidates, matchesId, matchesFilter, inAllowed, BormSchema.lookup,
         testSchema, spaceType, userType, accountType, space2, user1, user2,
         user4, account11, account21, space1, testDB, optsPlain,
         List.filter_cons, List.find?])
     (by
       simp [buildField, buildNode, buildObj, buildFieldList, buildObjList,
         plainFieldPair, allFieldPairs, metaPairs, mergeDup, findLinkField,
         lookupLinks, lookupAttr, hasAttr, isUniqueAttr, singularNode,
         candidates, matchesId, matchesFilter, inAllowed, BormSchema.lookup,
         testSchema, spaceType, userType, accountType, space2, user1, user2,
         user4, account11, account21, space1, testDB, optsPlain,
         List.filter_cons, List.find?])
     rfl rfl rfl rfl⟩

/-! ## C4 machinery: metadata removal commutes with node building -/

/-- Removing metadata inside the items of a value is removing it inside the
value. -/
theorem deepRemove_toItems (v : BVal) :
    deepRemoveList (toItems v) = toItems (deepRemoveMetaData v) := by
  cases v with
  | vnull => rfl
  | vstr s => rfl
  | vobj fs => rfl
  | varr xs => cases xs <;> rfl

theorem deepRemoveList_append (a b : List BVal) :
    deepRemoveList (a ++ b) = deepRemoveList a ++ deepRemoveList b := by
  induction a with
  | nil => rfl
  | cons v rest ih => rw [List.cons_append, deepRemoveList, deepRemoveList, ih,
      List.cons_append]

theorem deepRemoveList_flatten (L : List (List BVal)) :
    deepRemoveList L.flatten = (L.map deepRemoveList).flatten := by
  induction L with
  | nil => rfl
  | cons a rest ih =>
    rw [List.flatten_cons, deepRemoveList_append, ih, List.map_cons,
      List.flatten_cons]

theorem deepRemoveFields_append (a b : List (String × BVal)) :
    deepRemoveFields (a ++ b) = deepRemoveFields a ++ deepRemoveFields b := by
  induction a with
  | nil => rfl
  | cons kv rest ih =>
    rw [List.cons_append, deepRemoveFields, deepRemoveFields]
    cases h : metaKeys.contains kv.1 with
    | true => simpa using ih
    | false => simp only [Bool.false_eq_true, if_false]; rw [ih, List.cons_append]

/-- On meta-free keys, field removal is just value mapping. -/
theorem deepRemoveFields_of_not_meta (l : List (String × BVal))
    (h : ∀ kv ∈ l, metaKeys.contains kv.1 = false) :
    deepRemoveFields l = stripSnd l := by
  induction l with
  | nil => rfl
  | cons kv rest ih =>
    rw [deepRemoveFields]
    have hkv := h kv (List.mem_cons_self kv rest)
    rw [hkv]
    simp only [Bool.false_eq_true, if_false]
    rw [ih (fun kv2 hkv2 => h kv2 (List.mem_cons_of_mem kv hkv2))]
    rfl

/-- A list of metadata-only pairs is removed entirely. -/
theorem deepRemoveFields_all_meta (l : List (String × BVal))
    (h : ∀ kv ∈ l, metaKeys.contains kv.1 = true) :
    deepRemoveFields l = [] := by
  induction l with
  | nil => rfl
  | cons kv rest ih =>
    rw [deepRemoveFields, h kv (List.mem_cons_self kv rest)]
    simp only [if_true]
    exact ih (fun kv2 hkv2 => h kv2 (List.mem_cons_of_mem kv hkv2))

/-- `stripSnd` keeps keys, so key-based `any` is unchanged. -/
theorem stripSnd_any (l : List (String × BVal)) (p : String → Bool) :
    (stripSnd l).any (fun kv => p kv.1) = l.any (fun kv => p kv.1) := by
  induction l with
  | nil => rfl
  | cons kv rest ih =>
    obtain ⟨a, b⟩ := kv
    simp only [stripSnd, List.map_cons, List.any_cons] at ih ⊢
    rw [ih]

/-- `stripSnd` keeps keys, so key-based filtering commutes with it. -/
theorem stripSnd_filter (l : List (String × BVal)) (p : String → Bool) :
    (stripSnd l).filter (fun kv => p kv.1) = stripSnd (l.filter (fun kv => p kv.1)) := by
  induction l with
  | nil => rfl
  | cons kv rest ih =>
    obtain ⟨a, b⟩ := kv
    simp only [stripSnd, List.map_cons, List.filter_cons] at ih ⊢
    cases h : p a with
    | true => simp [h, ih]
    | false => simp [h, ih]

/-- Values untouched by metadata removal make `stripSnd` the identity. -/
theorem stripSnd_id_of (l : List (String × BVal))
    (h : ∀ kv ∈ l, deepRemoveMetaData kv.2 = kv.2) : stripSnd l = l := by
  induction l with
  | nil => rfl
  | cons kv rest ih =>
    obtain ⟨a, b⟩ := kv
    simp only [stripSnd, List.map_cons]
    rw [show deepRemoveMetaData b = b from h (a, b) (List.mem_cons_self _ _)]
    rw [show List.map (fun kv => (kv.1, deepRemoveMetaData kv.2)) rest = rest from
      ih (fun kv2 hkv2 => h kv2 (List.mem_cons_of_mem _ hkv2))]

/-- Strings survive metadata removal. -/
theorem deepRemoveList_vstrs (xs : List String) :
    deepRemoveList (xs.map BVal.vstr) = xs.map BVal.vstr := by
  induction xs with
  | nil => rfl
  | cons x rest ih => rw [List.map_cons, deepRemoveList, ih]; rfl

/-- Every key surviving `mergeDup` was a key of the input. -/
theorem mergeDup_keys_sub : ∀ (l : List (String × BVal)) (kv : String × BVal),
    kv ∈ mergeDup l → ∃ kv0, kv0 ∈ l ∧ kv0.1 = kv.1
  | [], kv, h => by simp [mergeDup] at h
  | kv1 :: rest, kv, h => by
    rw [mergeDup] at h
    cases hdup : rest.any (fun kv2 => kv2.1 == kv1.1) with
    | true =>
      simp only [hdup, if_true] at h
      rcases List.mem_cons.1 h with heq | hmem
      · exact ⟨kv1, List.mem_cons_self _ _, by rw [heq]⟩
      · obtain ⟨kv0, hkv0, hkey⟩ := mergeDup_keys_sub
          (rest.filter (fun kv2 => kv2.1 != kv1.1)) kv hmem
        exact ⟨kv0, List.mem_cons_of_mem _ (List.mem_of_mem_filter hkv0), hkey⟩
    | false =>
      simp only [hdup, Bool.false_eq_true, if_false] at h
      rcases List.mem_cons.1 h with heq | hmem
      · exact ⟨kv1, List.mem_cons_self _ _, by rw [heq]⟩
      · obtain ⟨kv0, hkv0, hkey⟩ := mergeDup_keys_sub rest kv hmem
        exact ⟨kv0, List.mem_cons_of_mem _ hkv0, hkey⟩
termination_by l _ _ => l.length
decreasing_by
  all_goals simp only [List.length_cons]
  all_goals first
    | exact Nat.lt_succ_of_le (List.length_filter_le _ _)
    | exact Nat.lt_succ_self _

/-- The item lists of stripped values are the stripped item lists. -/
theorem mapToItems_strip (X : List (String × BVal)) :
    (stripSnd X).map (fun kv2 => toItems kv2.2)
      = X.map (fun kv2 => deepRemoveList (toItems kv2.2)) := by
  induction X with
  | nil => rfl
  | cons kv r ih =>
    obtain ⟨a, b⟩ := kv
    simp only [stripSnd, List.map_cons] at ih ⊢
    rw [ih, deepRemove_toItems]

/-- Metadata removal inside values commutes with the duplicate-key merge. -/
theorem mergeDup_stripSnd : ∀ (l : List (String × BVal)),
    mergeDup (stripSnd l) = stripSnd (mergeDup l)
  | [] => by simp [mergeDup, stripSnd]
  | kv :: rest => by
    obtain ⟨a, b⟩ := kv
    rw [show stripSnd ((a, b) :: rest)
        = (a, deepRemoveMetaData b) :: stripSnd rest from rfl]
    rw [mergeDup, mergeDup]
    rw [stripSnd_any rest (fun k => k == a)]
    cases hdup : rest.any (fun kv2 => kv2.1 == a) with
    | true =>
      simp only [if_true]
      rw [show stripSnd ((a, BVal.varr (toItems b
          ++ ((rest.filter (fun kv2 => kv2.1 == a)).map
            (fun kv2 => toItems kv2.2)).flatten))
          :: mergeDup (rest.filter (fun kv2 => kv2.1 != a)))
        = (a, deepRemoveMetaData (BVal.varr (toItems b
          ++ ((rest.filter (fun kv2 => kv2.1 == a)).map
            (fun kv2 => toItems kv2.2)).flatten)))
          :: stripSnd (mergeDup (rest.filter (fun kv2 => kv2.1 != a))) from rfl]
      refine congrArg₂ List.cons ?_ ?_
      · rw [stripSnd_filter rest (fun k => k == a)]
        rw [mapToItems_strip]
        rw [show deepRemoveMetaData (BVal.varr (toItems b
            ++ ((rest.filter (fun kv2 => kv2.1 == a)).map
              (fun kv2 => toItems kv2.2)).flatten))
          = BVal.varr (deepRemoveList (toItems b
            ++ ((rest.filter (fun kv2 => kv2.1 == a)).map
              (fun kv2 => toItems kv2.2)).flatten)) from rfl]
        rw [deepRemoveList_append, deepRemove_toItems, deepRemoveList_flatten,
          List.map_map]
        rfl
      · rw [stripSnd_filter rest (fun k => k != a)]
        exact mergeDup_stripSnd (rest.filter (fun kv2 => kv2.1 != a))
    | false =>
      simp only [Bool.false_eq_true, if_false]
      rw [show stripSnd ((a, b) :: mergeDup rest)
          = (a, deepRemoveMetaData b) :: stripSnd (mergeDup rest) from rfl]
      refine congrArg₂ List.cons rfl ?_
      exact mergeDup_stripSnd rest
termination_by l => l.length
decreasing_by
  all_goals simp only [List.length_cons]
  all_goals first
    | exact Nat.lt_succ_of_le (List.length_filter_le _ _)
    | exact Nat.lt_succ_self _

/-- Every metadata pair's key is a metadata key. -/
theorem metaPairs_all_meta (opts : QueryOptions) (t : TypeDef) (tname : String)
    (i : ThingInstance) :
    ∀ kv ∈ metaPairs opts t tname i, metaKeys.contains kv.1 = true := by
  rw [metaPairs]
  cases hm : opts.noMetadata with
  | true => simp
  | false =>
    simp only [Bool.false_eq_true, if_false]
    cases hr : t.isRelation with
    | true =>
      simp only [if_true]
      intro kv hkv
      rcases List.mem_cons.1 hkv with heq | hkv2
      · rw [heq]; rfl
      · rcases List.mem_cons.1 hkv2 with heq | hkv3
        · rw [heq]; rfl
        · cases hkv3
    | false =>
      simp only [Bool.false_eq_true, if_false]
      intro kv hkv
      rcases List.mem_cons.1 hkv with heq | hkv2
      · rw [heq]; rfl
      · rcases List.mem_cons.1 hkv2 with heq | hkv3
        · rw [heq]; rfl
        · cases hkv3

/-- In a well-formed type, no requested-field key is a metadata key. -/
theorem bodyPairs_not_meta (schema : BormSchema) (db : DB)
    (opts : QueryOptions) (t : TypeDef) (i : ThingInstance)
    (fields : Option (List FieldSel)) (hwfT : wellFormedType t = true) :
    ∀ kv ∈ bodyPairs schema db opts t i fields,
      metaKeys.contains kv.1 = false :=
  fun kv hmem => resolvable_not_meta t kv.1 hwfT
    (bodyPairs_resolvable schema db opts t i fields kv hmem)

/-- Merging leaves the metadata prefix untouched when the remaining keys are
meta-free. -/
theorem mergeDup_append_meta (opts : QueryOptions) (t : TypeDef)
    (tname : String) (i : ThingInstance) (B : List (String × BVal))
    (hB : ∀ kv ∈ B, metaKeys.contains kv.1 = false) :
    mergeDup (metaPairs opts t tname i ++ B)
      = metaPairs opts t tname i ++ mergeDup B := by
  have hBne : ∀ kv ∈ B, ∀ x : String, metaKeys.contains x = true →
      (kv.1 == x) = false := by
    intro kv hkv x hx
    cases hbe : (kv.1 == x) with
    | false => rfl
    | true =>
      have heq : kv.1 = x := by simpa using hbe
      have hc := hB kv hkv
      rw [heq] at hc
      rw [hc] at hx
      cases hx
  have hstep : ∀ tk : String, metaKeys.contains tk = true →
      tk ≠ ("$id") →
      mergeDup ((tk, BVal.vstr tname) :: (("$id"), BVal.vstr i.id) :: B)
        = (tk, BVal.vstr tname) :: (("$id"), BVal.vstr i.id) :: mergeDup B := by
    intro tk htk hne
    have hany1 : (((("$id"), BVal.vstr i.id)) :: B).any
        (fun kv2 => kv2.1 == tk) = false := by
      rw [List.any_eq_false]
      intro kv hkv
      rcases List.mem_cons.1 hkv with heq | hkv2
      · rw [heq]
        simp [Ne.symm hne]
      · simp [hBne kv hkv2 tk htk]
    have hany2 : B.any (fun kv2 => kv2.1 == ("$id")) = false := by
      rw [List.any_eq_false]
      intro kv hkv
      simp [hBne kv hkv ("$id") (by rfl)]
    rw [mergeDup]
    simp only [hany1, Bool.false_eq_true, if_false]
    rw [mergeDup]
    simp only [hany2, Bool.false_eq_true, if_false]
  rw [metaPairs]
  cases hm : opts.noMetadata with
  | true => simp
  | false =>
    simp only [Bool.false_eq_true, if_false]
    cases hr : t.isRelation with
    | true =>
      simp only [if_true, List.cons_append, List.nil_append]
      exact hstep ("$relation") (by rfl) (by decide)
    | false =>
      simp only [Bool.false_eq_true, if_false, List.cons_append, List.nil_append]
      exact hstep ("$entity") (by rfl) (by decide)

/-- The value of a bare field survives metadata removal (it is a string, a
null, or an array of id strings). -/
theorem plainFieldPair_value_fixed (opts : QueryOptions) (t : TypeDef)
    (i : ThingInstance) (f : String) (kv : String × BVal)
    (h : plainFieldPair opts t i f = some kv) :
    deepRemoveMetaData kv.2 = kv.2 := by
  unfold plainFieldPair at h
  cases ha : hasAttr t f with
  | true =>
    simp only [ha, if_true] at h
    cases hl : lookupAttr i f with
    | some v => simp only [hl] at h; cases h; rfl
    | none =>
      simp only [hl] at h
      cases hr : opts.returnNulls with
      | true => simp only [hr, if_true] at h; cases h; rfl
      | false => simp only [hr, Bool.false_eq_true, if_false] at h; cases h
  | false =>
    simp only [ha, Bool.false_eq_true, if_false] at h
    cases hlf : findLinkField t f with
    | none => simp only [hlf] at h; cases h
    | some lf =>
      simp only [hlf] at h
      cases hls : lookupLinks i f with
      | nil =>
        simp only [hls] at h
        cases hr : opts.returnNulls with
        | true => simp only [hr, if_true] at h; cases h; rfl
        | false => simp only [hr, Bool.false_eq_true, if_false] at h; cases h
      | cons id0 restIds =>
        simp only [hls] at h
        cases hc : lf.cardMany with
        | true =>
          simp only [hc, if_true] at h
          cases h
          rw [show deepRemoveMetaData (BVal.varr ((id0 :: restIds).map BVal.vstr))
              = BVal.varr (deepRemoveList ((id0 :: restIds).map BVal.vstr)) from rfl]
          rw [deepRemoveList_vstrs]
        | false =>
          simp only [hc, Bool.false_eq_true, if_false] at h
          cases h
          rfl

/-- The implicit-all pairs with metadata off are the stripped implicit-all
pairs with metadata on (their values carry no metadata at all). -/
theorem allFieldPairs_strip (r : Bool) (t : TypeDef) (i : ThingInstance) :
    allFieldPairs { noMetadata := true, returnNulls := r } t i
      = stripSnd (allFieldPairs { noMetadata := false, returnNulls := r } t i) := by
  have h1 : allFieldPairs { noMetadata := true, returnNulls := r } t i
      = allFieldPairs { noMetadata := false, returnNulls := r } t i := rfl
  rw [h1]
  rw [stripSnd_id_of]
  intro kv hkv
  rw [allFieldPairs] at hkv
  obtain ⟨f, -, hp⟩ := List.mem_filterMap.1 hkv
  exact plainFieldPair_value_fixed _ t i f kv hp

mutual
/-- Building with `noMetadata` equals building with metadata and removing it
afterwards — node level. -/
theorem strip_buildNode (schema : BormSchema) (db : DB) (r : Bool)
    (tname : String) (allowed : Option (List String)) (n : QueryNode)
    (hwf : wellFormedSchema schema = true) :
    buildNode schema db { noMetadata := true, returnNulls := r } tname allowed n
      = deepRemoveMetaData (buildNode schema db
          { noMetadata := false, returnNulls := r } tname allowed n) := by
  cases n with
  | mk idf flt fields excl =>
    simp only [buildNode]
    cases hlook : BormSchema.lookup schema tname with
    | none => rfl
    | some t =>
      have hwfT := wellFormedType_of_lookup schema tname t hwf hlook
      cases hs : singularNode t idf flt with
      | true =>
        simp only [hs, if_true]
        cases hc : candidates db tname allowed idf flt with
        | nil => rfl
        | cons i rest =>
          exact strip_buildObj schema db r t tname fields excl i hwf hwfT
      | false =>
        simp only [hs, Bool.false_eq_true, if_false]
        show BVal.varr _ = BVal.varr (deepRemoveList _)
        exact congrArg BVal.varr
          (strip_buildObjList schema db r t tname fields excl
            (candidates db tname allowed idf flt) hwf hwfT)
termination_by (sizeOf n, 3, 0)
decreasing_by
  all_goals simp_wf
  all_goals apply Prod.Lex.left
  all_goals simp_arith

theorem strip_buildObjList (schema : BormSchema) (db : DB) (r : Bool)
    (t : TypeDef) (tname : String) (fields : Option (List FieldSel))
    (excl : List String) (cs : List ThingInstance)
    (hwf : wellFormedSchema schema = true) (hwfT : wellFormedType t = true) :
    buildObjList schema db { noMetadata := true, returnNulls := r }
        t tname fields excl cs
      = deepRemoveList (buildObjList schema db
          { noMetadata := false, returnNulls := r } t tname fields excl cs) := by
  cases cs with
  | nil => simp only [buildObjList]; rfl
  | cons i rest =>
    simp only [buildObjList]
    show _ = deepRemoveMetaData _ :: deepRemoveList _
    exact congrArg₂ List.cons
      (strip_buildObj schema db r t tname fields excl i hwf hwfT)
      (strip_buildObjList schema db r t tname fields excl rest hwf hwfT)
termination_by (sizeOf fields, 2, cs.length + 1)
decreasing_by
  all_goals simp_wf
  all_goals apply Prod.Lex.right
  all_goals apply Prod.Lex.right
  all_goals simp_arith

theorem strip_buildObj (schema : BormSchema) (db : DB) (r : Bool)
    (t : TypeDef) (tname : String) (fields : Option (List FieldSel))
    (excl : List String) (i : ThingInstance)
    (hwf : wellFormedSchema schema = true) (hwfT : wellFormedType t = true) :
    buildObj schema db { noMetadata := true, returnNulls := r }
        t tname fields excl i
      = deepRemoveMetaData (buildObj schema db
          { noMetadata := false, returnNulls := r } t tname fields excl i) := by
  rw [buildObj_eq, buildObj_eq]
  have hbody : bodyPairs schema db { noMetadata := true, returnNulls := r }
      t i fields
      = stripSnd (bodyPairs schema db { noMetadata := false, returnNulls := r }
          t i fields) := by
    cases fields with
    | none => rw [bodyPairs, bodyPairs]; exact allFieldPairs_strip r t i
    | some fs =>
      rw [bodyPairs, bodyPairs]
      exact strip_buildFieldList schema db r t i fs hwf
  have hkeysF := bodyPairs_not_meta schema db
    { noMetadata := false, returnNulls := r } t i fields hwfT
  have hmetaT : metaPairs { noMetadata := true, returnNulls := r } t tname i
      = [] := by simp [metaPairs]
  rw [hmetaT, List.nil_append, hbody, mergeDup_stripSnd]
  rw [stripSnd_filter _ (fun k => !(excl.contains k))]
  rw [mergeDup_append_meta { noMetadata := false, returnNulls := r }
    t tname i _ hkeysF]
  rw [List.filter_append]
  show BVal.vobj _ = BVal.vobj (deepRemoveFields _)
  refine congrArg BVal.vobj ?_
  rw [deepRemoveFields_append]
  rw [deepRemoveFields_all_meta _
    (fun kv hkv => metaPairs_all_meta { noMetadata := false, returnNulls := r }
      t tname i kv (List.mem_of_mem_filter hkv))]
  rw [List.nil_append]
  rw [deepRemoveFields_of_not_meta]
  intro kv hkv
  obtain ⟨kv0, hkv0, hk⟩ := mergeDup_keys_sub _ kv (List.mem_of_mem_filter hkv)
  rw [← hk]
  exact hkeysF kv0 hkv0
termination_by (sizeOf fields, 2, 0)
decreasing_by
  all_goals simp_wf
  all_goals apply Prod.Lex.left
  all_goals simp_arith

theorem strip_buildFieldList (schema : BormSchema) (db : DB) (r : Bool)
    (t : TypeDef) (i : ThingInstance) (fs : List FieldSel)
    (hwf : wellFormedSchema schema = true) :
    buildFieldList schema db { noMetadata := true, returnNulls := r } t i fs
      = stripSnd (buildFieldList schema db
          { noMetadata := false, returnNulls := r } t i fs) := by
  cases fs with
  | nil => simp only [buildFieldList]; rfl
  | cons f rest =>
    simp only [buildFieldList]
    rw [strip_buildField schema db r t i f hwf]
    cases hbf : buildField schema db { noMetadata := false, returnNulls := r }
        t i f with
    | none =>
      show buildFieldList schema db { noMetadata := true, returnNulls := r }
          t i rest = _
      exact strip_buildFieldList schema db r t i rest hwf
    | some kv =>
      show (kv.1, deepRemoveMetaData kv.2)
          :: buildFieldList schema db { noMetadata := true, returnNulls := r }
            t i rest = _
      exact congrArg₂ List.cons rfl (strip_buildFieldList schema db r t i rest hwf)
termination_by (sizeOf fs, 1, 0)
decreasing_by
  all_goals simp_wf
  all_goals apply Prod.Lex.left
  all_goals simp_arith

theorem strip_buildField (schema : BormSchema) (db : DB) (r : Bool)
    (t : TypeDef) (i : ThingInstance) (f : FieldSel)
    (hwf : wellFormedSchema schema = true) :
    buildField schema db { noMetadata := true, returnNulls := r } t i f
      = (buildField schema db { noMetadata := false, returnNulls := r } t i f).map
          (fun kv => (kv.1, deepRemoveMetaData kv.2)) := by
  cases f with
  | plain g =>
    simp only [buildField]
    have h1 : plainFieldPair { noMetadata := true, returnNulls := r } t i g
        = plainFieldPair { noMetadata := false, returnNulls := r } t i g := rfl
    rw [h1]
    cases hp : plainFieldPair { noMetadata := false, returnNulls := r } t i g with
    | none => rfl
    | some kv =>
      have hv := plainFieldPair_value_fixed
        { noMetadata := false, returnNulls := r } t i g kv hp
      show some kv = some (kv.1, deepRemoveMetaData kv.2)
      rw [hv]
  | nested p c =>
    cases hlf : findLinkField t p with
    | none => simp only [buildField, hlf]; rfl
    | some lf =>
      simp only [buildField, hlf]
      rw [strip_buildNode schema db r lf.target (some (lookupLinks i p)) c hwf]
      generalize buildNode schema db { noMetadata := false, returnNulls := r }
        lf.target (some (lookupLinks i p)) c = v
      cases v with
      | vnull =>
        cases r with
        | true => rfl
        | false => rfl
      | vstr s => rfl
      | vobj fs2 => rfl
      | varr xs =>
        cases xs with
        | nil =>
          cases r with
          | true => rfl
          | false => rfl
        | cons y ys => rfl
termination_by (sizeOf f, 0, 0)
decreasing_by
  all_goals simp_wf
  all_goals apply Prod.Lex.left
  all_goals simp_arith
end

mutual
/-- Metadata removal is idempotent — value level. -/
theorem deepRemove_idem : ∀ v : BVal,
    deepRemoveMetaData (deepRemoveMetaData v) = deepRemoveMetaData v
  | BVal.vnull => rfl
  | BVal.vstr _ => rfl
  | BVal.vobj fs => congrArg BVal.vobj (deepRemoveFields_idem fs)
  | BVal.varr xs => congrArg BVal.varr (deepRemoveList_idem xs)

theorem deepRemoveList_idem : ∀ xs : List BVal,
    deepRemoveList (deepRemoveList xs) = deepRemoveList xs
  | [] => rfl
  | v :: rest =>
    congrArg₂ List.cons (deepRemove_idem v) (deepRemoveList_idem rest)

theorem deepRemoveFields_idem : ∀ l : List (String × BVal),
    deepRemoveFields (deepRemoveFields l) = deepRemoveFields l
  | [] => rfl
  | kv :: rest => by
    rw [deepRemoveFields]
    cases h : metaKeys.contains kv.1 with
    | true =>
      simp only [h, if_true]
      exact deepRemoveFields_idem rest
    | false =>
      simp only [h, Bool.false_eq_true, if_false]
      rw [deepRemoveFields]
      simp only [h, Bool.false_eq_true, if_false]
      exact congrArg₂ List.cons
        (congrArg (Prod.mk kv.1) (deepRemove_idem kv.2))
        (deepRemoveFields_idem rest)
end

/-! ## C4: `noMetadata` equals recursive metadata removal, idempotently -/

/-- C4: the response built with `noMetadata: true` equals the response built
with metadata with every `$entity`/`$relation`/`$id` key removed recursively
from every node; and the removal is idempotent — applying it to an
already-stripped response changes nothing. -/
theorem noMetadata_strip_idempotent :
    (∀ (schema : BormSchema) (db : DB) (r : Bool) (tname : String)
        (n : QueryNode), wellFormedSchema schema = true →
      buildBQLTreeModel schema db { noMetadata := true, returnNulls := r }
          tname n
        = deepRemoveMetaData (buildBQLTreeModel schema db
            { noMetadata := false, returnNulls := r } tname n))
    ∧ (∀ v : BVal,
        deepRemoveMetaData (deepRemoveMetaData v) = deepRemoveMetaData v) := by
  constructor
  · intro schema db r tname n hwf
    rw [buildBQLTreeModel, buildBQLTreeModel]
    exact strip_buildNode schema db r tname none n hwf
  · exact deepRemove_idem

/-- Witness for C4 at test e3's comparison on the test fixtures. -/
theorem noMetadata_strip_idempotent_witness :
    wellFormedSchema testSchema = true
    ∧ buildBQLTreeModel testSchema testDB
        { noMetadata := true, returnNulls := false } ("User") exampleQueryNode
      = deepRemoveMetaData (buildBQLTreeModel testSchema testDB
          { noMetadata := false, returnNulls := false } ("User")
          exampleQueryNode) :=
  ⟨rfl, noMetadata_strip_idempotent.1 testSchema testDB false ("User")
    exampleQueryNode rfl⟩
